import Mathlib

/-!
Shallow embedding of the repository-aggregation engine in
`assets/js/github-projects.js` (the portfolio site's unified GitHub
projects build).  Pure functions of the source are translated into Lean
functions; the mutable pieces (the request queue, the global topics
budget, the localStorage cache) are modelled by explicit state passing.
JavaScript numbers that matter here are integers plus NaN (the code uses
`Number.isFinite`, `||` falsiness on numbers, and comparator arithmetic),
so they are modelled by an `Int`-or-NaN type.  Network calls are modelled
by `Except`-valued parameters standing for the settled outcome of the
underlying `fetch`.
-/

/-- JavaScript number as used by this program: an integer value or NaN.
(`Infinity` is folded into `nan`: the code only distinguishes finite
numbers via `Number.isFinite`.) -/
inductive JsNum where
  | num (n : Int)
  | nan
deriving DecidableEq, Repr

/-- `Number.isFinite`. -/
def JsNum.isFinite : JsNum → Bool
  | .num _ => true
  | .nan => false

/-- JavaScript subtraction on numbers: NaN is absorbing. -/
def JsNum.sub : JsNum → JsNum → JsNum
  | .num a, .num b => .num (a - b)
  | _, _ => .nan

/-- JavaScript numeric falsiness: `0` and `NaN` are falsy. -/
def JsNum.falsy : JsNum → Bool
  | .num n => n = 0
  | .nan => true

/-- `a || d` where `a` is a possibly-null/undefined string (`none`) and the
empty string is falsy, as in the source's `it.full_name || ""` chains. -/
def jsOr (a : Option String) (d : String) : String :=
  match a with
  | some s => if s = "" then d else s
  | none => d

/-- `a || b` where both operands are possibly-null strings and the result
is used as a possibly-null string (`fetched.pushed_at || m.pushed_at`). -/
def jsOrO (a b : Option String) : Option String :=
  match a with
  | some s => if s = "" then b else some s
  | none => b

/-- Truthiness of a possibly-null string (`m.pushed_at ? … : …`). -/
def truthyS : Option String → Bool
  | some s => s ≠ ""
  | none => false

/-- Lexicographic comparison of code-point sequences; the model of
`String.prototype.localeCompare` used by the sort comparators (for the
ASCII repository names involved, locale order is code-point order).
Returns `-1`, `0` or `1` like the source's comparator contract expects. -/
def natListCmp : List Nat → List Nat → Int
  | [], [] => 0
  | [], _ :: _ => -1
  | _ :: _, [] => 1
  | a :: as, b :: bs =>
    if a < b then -1 else if b < a then 1 else natListCmp as bs

/-- `a.localeCompare(b)` modelled as code-point lexicographic order. -/
def strCmp (a b : String) : Int :=
  natListCmp (a.data.map Char.toNat) (b.data.map Char.toNat)

/-- ECMAScript `SortCompare`: a comparator result that is NaN is treated
as `+0`, so "not greater than zero" is the keep-order/`a`-first test. -/
def jsLe (c : JsNum) : Bool :=
  match c with
  | .num n => n ≤ 0
  | .nan => true

/-- Split a character list at every occurrence of `sep`
(`"a/b".split("/")` semantics for one-character separators).  All the
string helpers below are structurally recursive over the character list
so that concrete runs reduce inside the kernel. -/
def jsSplitGo (sep : Char) : List Char → List (List Char)
  | [] => [[]]
  | c :: rest =>
    match jsSplitGo sep rest with
    | [] => [[]]
    | h :: t => if c = sep then [] :: h :: t else (c :: h) :: t

/-- `s.split(sep)` for a one-character separator. -/
def jsSplit (s : String) (sep : Char) : List String :=
  (jsSplitGo sep s.data).map (fun l => ⟨l⟩)

/-- The whitespace recognised by `String.prototype.trim` (the forms
occurring in this data). -/
def isWsChar (c : Char) : Bool :=
  c = ' ' || c = '\t' || c = '\n' || c = '\r'

/-- `s.trim()`. -/
def jsTrim (s : String) : String :=
  ⟨((s.data.dropWhile isWsChar).reverse.dropWhile isWsChar).reverse⟩

def listStartsWith : List Char → List Char → Bool
  | [], _ => true
  | _ :: _, [] => false
  | p :: ps, c :: cs => p = c && listStartsWith ps cs

/-- Split `l` at the first occurrence of `pat`: `some (before, after)`,
or `none` when `pat` does not occur. -/
def breakOnGo (pat : List Char) : List Char → Option (List Char × List Char)
  | [] => if pat = [] then some ([], []) else none
  | c :: cs =>
    if listStartsWith pat (c :: cs) then some ([], (c :: cs).drop pat.length)
    else (breakOnGo pat cs).map (fun p => (c :: p.1, p.2))

/-- `s.includes(pat)` (used for the `String(err).includes("Failed to
fetch")` check). -/
def hasSubstr (s pat : String) : Bool :=
  (breakOnGo pat.data s.data).isSome

/-- Parse a non-empty all-digit character list as a natural number. -/
def digitsToNat? (l : List Char) : Option Nat :=
  if l = [] then none
  else if l.all (fun c => 48 ≤ c.toNat && c.toNat ≤ 57) then
    some (l.foldl (fun acc c => acc * 10 + (c.toNat - 48)) 0)
  else none

/-- Lowercase an ASCII letter (`toLowerCase` for the ASCII names this
program compares). -/
def charLower (c : Char) : Char :=
  if 65 ≤ c.toNat ∧ c.toNat ≤ 90 then Char.ofNat (c.toNat + 32) else c

/-- `s.toLowerCase()` for ASCII data. -/
def jsLower (s : String) : String :=
  ⟨s.data.map charLower⟩

/-- Stable insertion of `x` (an element occurring earlier in the input
than everything in `l`) into an already-sorted list. -/
def jsSortInsert (le : α → α → Bool) (x : α) : List α → List α
  | [] => [x]
  | y :: r => if le x y then x :: y :: r else y :: jsSortInsert le x r

/-- Model of `Array.prototype.sort(comparefn)`.  ES2019+ requires the sort
to be stable, and for a consistent comparator the stable sorted
permutation is unique, so any stable sorting algorithm is a faithful
model; we use insertion sort.  `le a b` means "comparefn(a,b) ≤ 0", i.e.
`a` may stay before `b`. -/
def jsSort (le : α → α → Bool) : List α → List α
  | [] => []
  | x :: r => jsSortInsert le x (jsSort le r)

-- ---------------- Config constants (source lines 203-207) ----------------

/-- `const REQUEST_GAP_MS = 600` — queue spacing in milliseconds. -/
def REQUEST_GAP_MS : Nat := 600

/-- `const ORG_CACHE_TTL = 30 * 60 * 1000` (ms). -/
def ORG_CACHE_TTL : Int := 30 * 60 * 1000

/-- `const GRID_CACHE_TTL = 30 * 60 * 1000` (ms). -/
def GRID_CACHE_TTL : Int := 30 * 60 * 1000

/-- `const TOPIC_CACHE_TTL = 7 * 24 * 60 * 60 * 1000` (ms). -/
def TOPIC_CACHE_TTL : Int := 7 * 24 * 60 * 60 * 1000

/-- `let GLOBAL_TOPICS_FETCH_BUDGET = 32` — initial value of the global
deep-topics budget counter (an `Int`, since the claim is that it never
becomes negative). -/
def GLOBAL_TOPICS_FETCH_BUDGET_INIT : Int := 32

-- ---------------- Record shapes ----------------

/-- The repository record shape produced by `normalizeManualRepo` and
flowing through hydration and the grid.  Raw API list items are modelled
with the same projection (every field below is present on GitHub's API
items; `_pinned` is absent there and modelled as `false`).
`stargazers_count` is a JS number (`Number.isFinite` is consulted on it),
`pushed_at` is a nullable string, `topics` is `none` when the object has
no array-valued `topics` key (`Array.isArray` is consulted on it). -/
structure Repo where
  full_name : String
  name : String
  html_url : String
  description : String
  language : String
  stargazers_count : JsNum
  pushed_at : Option String
  archived : Bool
  fork : Bool
  private_ : Bool
  topics : Option (List String)
  _pinned : Bool
deriving DecidableEq, Repr

/-- Default repository record (used only as the out-of-bounds default for
index-based list access in the `ensureTopicsFor` model). -/
def emptyRepo : Repo :=
  { full_name := "", name := "", html_url := "", description := ""
    language := "", stargazers_count := .num 0, pushed_at := none
    archived := false, fork := false, private_ := false
    topics := none, _pinned := false }

/-- Raw single-repository detail response as consumed by
`hydrateManualRepos` (source lines 664-679): every field may be
null/undefined.  `archived`/`fork`/`private` go through `!!`, so `none`
models any falsy value. -/
structure FetchedRepo where
  full_name : Option String
  name : Option String
  html_url : Option String
  description : Option String
  language : Option String
  stargazers_count : Option JsNum
  pushed_at : Option String
  archived : Option Bool
  fork : Option Bool
  private_ : Option Bool
  topics : Option (List String)
deriving DecidableEq, Repr

/-- A loosely-typed manual JSON entry as consumed by
`normalizeManualRepo` (source lines 603-638).  Numeric inputs are
modelled after the `Number(...)` coercion the source applies (`nan` for
anything that does not coerce to a finite number); `archived`, `fork`,
`private`, `pinned` are modelled as the truthiness of the raw value. -/
structure ManualEntry where
  full_name : Option String
  name : Option String
  html_url : Option String
  url : Option String
  description : Option String
  language : Option String
  stars : Option JsNum
  stargazers_count : Option JsNum
  pushed_at : Option String
  archived : Bool
  fork : Bool
  private_ : Bool
  topics : Option (List String)
  pinned : Bool
deriving DecidableEq, Repr

/-- A localStorage cache entry `{ ts, data }` as written by `setCache`. -/
structure CacheEntry (α : Type) where
  ts : Int
  data : α
deriving DecidableEq, Repr

/-- The `/topics` endpoint response consumed by `fetchRepoTopics`:
`data.names` may be missing or not an array (`Array.isArray` check). -/
structure TopicsResp where
  names : Option (List String)
deriving DecidableEq, Repr

-- ---------------- Rate-limited dispatcher (source lines 246-269) ----------------

/-- A task handed to `enqueue`: its execution duration (ms the awaited
`fn()` takes to settle) and its settlement (resolve value or rejection
reason, as the dispatcher observes them in `try { resolve(await fn()) }
catch (e) { reject(e) }`). -/
structure QTask (α : Type) where
  dur : Nat
  result : Except String α
deriving Repr

/-- The `pump` worker loop: with the wall clock at `t`, drain the FIFO
queue; each iteration shifts the head task, starts it (start time `t`),
awaits it for `dur` ms, settles its promise with its own result, then
waits `REQUEST_GAP_MS` before the next iteration.  Returns, in queue
order, each task's start time and settlement. -/
def pump (t : Nat) : List (QTask α) → List (Nat × Except String α)
  | [] => []
  | task :: rest => (t, task.result) :: pump (t + task.dur + REQUEST_GAP_MS) rest

/-- Start time of the `i`-th dispatched task (0 past the end). -/
def pumpStart (t : Nat) (ts : List (QTask α)) (i : Nat) : Nat :=
  ((pump t ts).getD i (0, Except.error "")).1

/-- Settlement of the `i`-th dispatched task. -/
def pumpResult (t : Nat) (ts : List (QTask α)) (i : Nat) : Except String α :=
  ((pump t ts).getD i (0, Except.error "")).2

-- ---------------- Cache-fronted source fetchers ----------------

/-- Outcome of one cache-fronted fetch: the value returned (or error
propagated) to the caller, the cache entry for the key afterwards, and
whether a request was dispatched through the queue. -/
structure FetchOutcome (α : Type) where
  result : Except String α
  cacheAfter : Option (CacheEntry α)
  dispatched : Bool
deriving Repr

/-- The shared fetcher pattern (`fetchOrgRepos`, `fetchUserRepos`,
`fetchOrgReposForGrid`, `fetchRepoDetails`, source lines 409-419,
641-651, 704-725): if the cached entry is fresh (`now() - cached.ts <
TTL`) return its payload without dispatching; otherwise dispatch, and on
success overwrite the cache entry with `{ ts: now(), data }`; on failure
propagate the error (the cache entry, fresh or stale, is left as is).
`dispatch` stands for the settled outcome of `fetchQueuedJSON(url)`. -/
def cachedFetch (ttl : Int) (cached : Option (CacheEntry α)) (tNow : Int)
    (dispatch : Except String α) : FetchOutcome α :=
  match cached with
  | some c =>
    if tNow - c.ts < ttl then
      { result := .ok c.data, cacheAfter := some c, dispatched := false }
    else
      match dispatch with
      | .ok d => { result := .ok d, cacheAfter := some ⟨tNow, d⟩, dispatched := true }
      | .error e => { result := .error e, cacheAfter := some c, dispatched := true }
  | none =>
    match dispatch with
    | .ok d => { result := .ok d, cacheAfter := some ⟨tNow, d⟩, dispatched := true }
    | .error e => { result := .error e, cacheAfter := none, dispatched := true }

/-- `fetchOrgRepos(org)` (source lines 409-419), with the org's cache
entry, the current time and the dispatch outcome made explicit. -/
def fetchOrgRepos (cached : Option (CacheEntry (List Repo))) (tNow : Int)
    (dispatch : Except String (List Repo)) : FetchOutcome (List Repo) :=
  cachedFetch ORG_CACHE_TTL cached tNow dispatch

/-- `fetchUserRepos(user)` (source lines 704-714). -/
def fetchUserRepos (cached : Option (CacheEntry (List Repo))) (tNow : Int)
    (dispatch : Except String (List Repo)) : FetchOutcome (List Repo) :=
  cachedFetch GRID_CACHE_TTL cached tNow dispatch

/-- `fetchRepoDetails(owner, repo)` (source lines 641-651). -/
def fetchRepoDetails (cached : Option (CacheEntry FetchedRepo)) (tNow : Int)
    (dispatch : Except String FetchedRepo) : FetchOutcome FetchedRepo :=
  cachedFetch GRID_CACHE_TTL cached tNow dispatch

/-- `fetchRepoTopics(owner, repo)` (source lines 421-432): same pattern
with `TOPIC_CACHE_TTL`, except that what is cached and returned is
`Array.isArray(data.names) ? data.names : []`. -/
def fetchRepoTopics (cached : Option (CacheEntry (List String))) (tNow : Int)
    (dispatch : Except String TopicsResp) : FetchOutcome (List String) :=
  match cached with
  | some c =>
    if tNow - c.ts < TOPIC_CACHE_TTL then
      { result := .ok c.data, cacheAfter := some c, dispatched := false }
    else
      match dispatch with
      | .ok d =>
        { result := .ok (d.names.getD []), cacheAfter := some ⟨tNow, d.names.getD []⟩
          dispatched := true }
      | .error e => { result := .error e, cacheAfter := some c, dispatched := true }
  | none =>
    match dispatch with
    | .ok d =>
      { result := .ok (d.names.getD []), cacheAfter := some ⟨tNow, d.names.getD []⟩
        dispatched := true }
    | .error e => { result := .error e, cacheAfter := none, dispatched := true }

-- ---------------- Topic budget controller (source lines 434-446) ----------------

/-- A repository needs a deep topics fetch when
`!Array.isArray(r.topics) || r.topics.length === 0`. -/
def needsTopics (r : Repo) : Bool :=
  match r.topics with
  | some (_ :: _) => false
  | _ => true

/-- Result of one `ensureTopicsFor` call: the (mutated) repo list, the
global budget counter afterwards, the number of deep-fetch attempts made
(calls to `fetchRepoTopics`), and — as ghost instrumentation — the value
of the counter right after each `GLOBAL_TOPICS_FETCH_BUDGET--`. -/
structure EnsureResult where
  repos : List Repo
  budget : Int
  attempts : Nat
  trace : List Int
deriving DecidableEq, Repr

/-- One iteration's mutation in `ensureTopicsFor`'s loop:
`try { r.topics = await fetchRepoTopics(org, r.name); } catch {}` — a
failed fetch leaves the repo unchanged.  `fetch org name` is the settled
outcome of `fetchRepoTopics` for that repository. -/
def topicsStep (fetch : String → String → Except Unit (List String))
    (org : String) (i : Nat) (rs : List Repo) : List Repo :=
  match fetch org (rs.getD i emptyRepo).name with
  | .ok ts => rs.set i { rs.getD i emptyRepo with topics := some ts }
  | .error _ => rs

/-- The `for (const r of need)` loop of `ensureTopicsFor`: `need` is
fixed up front (as indices into the repo list); each iteration first
checks `if (GLOBAL_TOPICS_FETCH_BUDGET <= 0) break`, then applies
`topicsStep`, then decrements the budget unconditionally. -/
def ensureTopicsGo (fetch : String → String → Except Unit (List String))
    (org : String) : List Nat → Int → List Repo → EnsureResult
  | [], b, rs => { repos := rs, budget := b, attempts := 0, trace := [] }
  | i :: rest, b, rs =>
    if b ≤ 0 then { repos := rs, budget := b, attempts := 0, trace := [] }
    else
      let res := ensureTopicsGo fetch org rest (b - 1) (topicsStep fetch org i rs)
      { repos := res.repos, budget := res.budget, attempts := res.attempts + 1
        trace := (b - 1) :: res.trace }

/-- `ensureTopicsFor(org, repos, maxRequests = 24)` (source lines
434-446): the candidate set is the repos whose topics are missing or
empty, sliced to `Math.max(0, Math.min(maxRequests,
GLOBAL_TOPICS_FETCH_BUDGET))`; then the loop above runs.  The global
counter is threaded explicitly as `budget`. -/
def ensureTopicsFor (fetch : String → String → Except Unit (List String))
    (org : String) (budget : Int) (repos : List Repo) (maxRequests : Int) :
    EnsureResult :=
  let need :=
    ((List.range repos.length).filter
      (fun i => needsTopics (repos.getD i emptyRepo))).take
      (max 0 (min maxRequests budget)).toNat
  ensureTopicsGo fetch org need budget repos

/-- One `ensureTopicsFor` call site in a page load: the org, its repo
batch, the card's `data-topics-deep-limit`, and the per-repo fetch
outcomes. -/
structure TopicCall where
  org : String
  repos : List Repo
  maxRequests : Int
  fetch : String → String → Except Unit (List String)

/-- A page load: the sequence of `ensureTopicsFor` calls made (the
source calls it once per org card, sequentially, inside
`fillOrgCards`).  Threads the shared budget through and accumulates the
total attempt count and the concatenated counter trace. -/
def runTopicCalls : Int → List TopicCall → Int × Nat × List Int
  | b, [] => (b, 0, [])
  | b, c :: cs =>
    let r := ensureTopicsFor c.fetch c.org b c.repos c.maxRequests
    let rest := runTopicCalls r.budget cs
    (rest.1, r.attempts + rest.2.1, r.trace ++ rest.2.2)

-- ---------------- Dates (model of `new Date(iso)` for API timestamps) ----------------

/-- Days since 1970-01-01 for a civil date (standard days-from-civil
algorithm; exact for the years the API produces). -/
def daysFromCivil (y m d : Int) : Int :=
  let y' := if m ≤ 2 then y - 1 else y
  let era := (if 0 ≤ y' then y' else y' - 399) / 400
  let yoe := y' - era * 400
  let mp := (m + 9) % 12
  let doy := (153 * mp + 2) / 5 + d - 1
  let doe := yoe * 365 + yoe / 4 - yoe / 100 + doy
  era * 146097 + doe - 719468

/-- Epoch milliseconds of the date part `YYYY-MM-DD`. -/
def isoDateOnlyMs (datePart : String) : Option Int :=
  match (jsSplit datePart '-').map (fun x => digitsToNat? x.data) with
  | [some y, some mo, some d] =>
    if 1 ≤ mo ∧ mo ≤ 12 ∧ 1 ≤ d ∧ d ≤ 31 then
      some (daysFromCivil (Int.ofNat y) (Int.ofNat mo) (Int.ofNat d) * 86400000)
    else none
  | _ => none

/-- Milliseconds within the day of the time part `HH:MM:SS(.fff)?Z?`. -/
def isoTimeMs (timePart : String) : Option Int :=
  let noZ : String :=
    if timePart.data.getLast? = some 'Z' then ⟨timePart.data.dropLast⟩ else timePart
  let core := (jsSplit noZ '.').getD 0 ""
  match (jsSplit core ':').map (fun x => digitsToNat? x.data) with
  | [some h, some mi, some sec] =>
    if h ≤ 23 ∧ mi ≤ 59 ∧ sec ≤ 59 then
      some ((h * 3600000 + mi * 60000 + sec * 1000 : Nat))
    else none
  | _ => none

/-- Epoch milliseconds of an ISO-8601 UTC timestamp
(`YYYY-MM-DD` or `YYYY-MM-DDTHH:MM:SS(.fff)?Z`, the shapes `pushed_at`
carries); NaN for anything else — the model of `Date.parse`. -/
def isoDateMs (s : String) : JsNum :=
  match jsSplit s 'T' with
  | [d] =>
    match isoDateOnlyMs d with
    | some ms => .num ms
    | none => .nan
  | [d, t] =>
    match isoDateOnlyMs d, isoTimeMs t with
    | some dms, some tms => .num (dms + tms)
    | _, _ => .nan
  | _ => .nan

/-- `new Date(x).getTime()` for the nullable `pushed_at` field:
`new Date(null)` is the epoch (0); a string is parsed as above. -/
def dateMs (o : Option String) : JsNum :=
  match o with
  | none => .num 0
  | some s => isoDateMs s

-- ---------------- Sorting (source lines 458-468 and 750-758) ----------------

/-- Comparator `(a, b) => b.stargazers_count - a.stargazers_count ||
a.name.localeCompare(b.name)` — note a NaN star difference is falsy in
JS, so it also falls through to the name comparison. -/
def starsCmp (a b : Repo) : JsNum :=
  let d := JsNum.sub b.stargazers_count a.stargazers_count
  if d.falsy then .num (strCmp a.name b.name) else d

/-- Comparator `(a, b) => new Date(b.pushed_at) - new Date(a.pushed_at)`. -/
def pushedCmp (a b : Repo) : JsNum :=
  JsNum.sub (dateMs b.pushed_at) (dateMs a.pushed_at)

/-- Comparator `(a, b) => a.name.localeCompare(b.name)`. -/
def nameCmp (a b : Repo) : JsNum :=
  .num (strCmp a.name b.name)

/-- "keep `a` before `b`" tests derived from the three comparators. -/
def starsLe (a b : Repo) : Bool := jsLe (starsCmp a b)

def pushedLe (a b : Repo) : Bool := jsLe (pushedCmp a b)

def nameLe (a b : Repo) : Bool := jsLe (nameCmp a b)

/-- `sortRepos(repos, mode)` (source lines 750-758): the grid sort.
Only `"stars"` is distinguished; every other mode value (including
`"name"`) takes the `else` branch and sorts by pushed date descending. -/
def sortRepos (repos : List Repo) (mode : String) : List Repo :=
  if mode = "stars" then jsSort starsLe repos
  else jsSort pushedLe repos

/-- `sortForCard(repos, mode)` (source lines 458-468): the org-card sort
with three modes — `"stars"`, `"name"`, default `"pushed"`. -/
def sortForCard (repos : List Repo) (mode : String) : List Repo :=
  if mode = "stars" then jsSort starsLe repos
  else if mode = "name" then jsSort nameLe repos
  else jsSort pushedLe repos

/-- `isPinnedGrid(r)` (source lines 745-748) with the `data-pin` list
(already lowercased by the config reader) passed explicitly. -/
def isPinnedGrid (pinnedNames : List String) (r : Repo) : Bool :=
  r._pinned || pinnedNames.contains (jsLower r.name)
    || pinnedNames.contains (jsLower r.full_name)

/-- The pinned-first pass in `renderGrid` (source line 836):
`repos.sort((a, b) => isPinnedGrid(b) - isPinnedGrid(a))` — a stable
sort whose comparator is ≤ 0 unless exactly `b` is pinned. -/
def pinnedFirst (pinnedNames : List String) (repos : List Repo) : List Repo :=
  jsSort (fun a b => !(isPinnedGrid pinnedNames b && !isPinnedGrid pinnedNames a)) repos

/-- `applyGridFilters(raw)` (source lines 759-764) with the two
`data-exclude-*` flags passed explicitly. -/
def applyGridFilters (exForks exArchived : Bool) (raw : List Repo) : List Repo :=
  let repos := raw.filter (fun r => !r.private_)
  let repos := if exForks then repos.filter (fun r => !r.fork) else repos
  if exArchived then repos.filter (fun r => !r.archived) else repos

-- ---------------- Manual repos: normalize + hydrate (source lines 595-701) ----------------

/-- `s.replace(/^\/|\/$/g, "")`: strips one leading and one trailing
slash. -/
def stripSlashes (s : String) : String :=
  let l := if s.data.head? = some '/' then s.data.tail else s.data
  ⟨if l.getLast? = some '/' then l.dropLast else l⟩

/-- `new URL(u).pathname` for an absolute URL (the only success case the
source relies on); `none` models the constructor throwing. -/
def urlPathname (u : String) : Option String :=
  match breakOnGo "://".data u.data with
  | none => none
  | some (_, rest) =>
    match breakOnGo ['/'] rest with
    | none => some "/"
    | some (_, path) => some ("/" ++ (⟨path⟩ : String))

/-- `normalizeManualRepo(it)` (source lines 603-638).  Returns `none`
for an entry whose identity cannot be resolved (`!full ||
!full.includes("/")`). -/
def normalizeManualRepo (it : ManualEntry) : Option Repo :=
  let full0 := jsTrim (jsOr it.full_name "")
  let full :=
    if full0 = "" ∧ truthyS (jsOrO it.html_url it.url) then
      match urlPathname (jsOr (jsOrO it.html_url it.url) "") with
      | some p => stripSlashes p
      | none => full0
    else full0
  if full = "" ∨ ¬ full.data.contains '/' then none
  else
    let name := jsTrim (jsOr it.name ((jsSplit full '/').getD 1 ""))
    let html_url := jsOr it.html_url (jsOr it.url ("https://github.com/" ++ full))
    let stars := it.stars.getD (it.stargazers_count.getD (.num 0))
    some
      { full_name := full
        name := name
        html_url := html_url
        description := jsOr it.description ""
        language := jsOr it.language ""
        stargazers_count := if stars.isFinite then stars else .num 0
        pushed_at := jsOrO it.pushed_at none
        archived := it.archived
        fork := it.fork
        private_ := it.private_
        topics := some (it.topics.getD [])
        _pinned := it.pinned }

/-- `loadManualRepos(src)` (source lines 595-602): map + drop
unresolvable entries. -/
def loadManualRepos (entries : List ManualEntry) : List Repo :=
  entries.filterMap normalizeManualRepo

/-- The body of `hydrateManualRepos` for one manual record (source
lines 656-698).  `fetch owner name` is the settled outcome of
`fetchRepoDetails(owner, name)`.  The merged record is
`{ ...fetchedNorm, ...m, stargazers_count: …, topics: …, pushed_at: … }`:
a normalized manual record defines every `Repo` field, so the `...m`
spread makes each non-explicit field equal to `m`'s; the three explicit
overrides then replace those. -/
def hydrateOne (fetch : String → String → Except String FetchedRepo) (m : Repo) :
    Repo :=
  let parts := jsSplit m.full_name '/'
  let owner := parts.getD 0 ""
  let name := parts.getD 1 ""
  if owner = "" ∨ name = "" then m
  else
    match fetch owner name with
    | .error _ => m
    | .ok fetched =>
      let fetchedNorm : Repo :=
        { full_name := jsOr fetched.full_name m.full_name
          name := jsOr fetched.name m.name
          html_url :=
            jsOr fetched.html_url
              (if m.html_url = "" then "https://github.com/" ++ m.full_name
               else m.html_url)
          description := fetched.description.getD ""
          language := fetched.language.getD ""
          stargazers_count := fetched.stargazers_count.getD (.num 0)
          pushed_at := jsOrO fetched.pushed_at m.pushed_at
          archived := fetched.archived.getD false
          fork := fetched.fork.getD false
          private_ := fetched.private_.getD false
          topics := some (fetched.topics.getD [])
          -- `fetchedNorm` has no `_pinned` key in the source; the value is
          -- irrelevant because the `...m` spread supplies `_pinned`.
          _pinned := false }
      { full_name := m.full_name
        name := m.name
        html_url := m.html_url
        description := m.description
        language := m.language
        stargazers_count :=
          if m.stargazers_count.isFinite then m.stargazers_count
          else fetchedNorm.stargazers_count
        pushed_at := if truthyS m.pushed_at then m.pushed_at else fetchedNorm.pushed_at
        archived := m.archived
        fork := m.fork
        private_ := m.private_
        topics :=
          match m.topics with
          | some (t :: ts) => some (t :: ts)
          | _ => fetchedNorm.topics
        _pinned := m._pinned }

/-- `hydrateManualRepos(list)` (source lines 654-701): the loop pushes
one output record per input record, in order. -/
def hydrateManualRepos (fetch : String → String → Except String FetchedRepo)
    (list : List Repo) : List Repo :=
  list.map (hydrateOne fetch)

-- ---------------- Grid aggregation (source lines 804-846) ----------------

/-- JS `Map` lookup, on the insertion-ordered association-list model. -/
def mapGet : List (String × Repo) → String → Option Repo
  | [], _ => none
  | p :: rest, k => if p.1 = k then some p.2 else mapGet rest k

/-- JS `Map.set`: overwrite in place if the key exists (keys are unique
in a `Map`, so replacing the first hit is exact), else append. -/
def mapSet : List (String × Repo) → String → Repo → List (String × Repo)
  | [], k, v => [(k, v)]
  | p :: rest, k, v => if p.1 = k then (k, v) :: rest else p :: mapSet rest k v

/-- `{ ...old, ...m }` where `m` is a (total) manual/hydrated record:
every `Repo` field is defined on `m`, so each field of the result is
`m`'s regardless of `old` (`old` may be `undefined` when the key is
absent). -/
def spreadRepo (_old : Option Repo) (m : Repo) : Repo := m

/-- The aggregation core of `fetchAllForGrid` (source lines 804-825),
with the already-settled fetched arrays flattened into `fetched` and the
hydrated manual list passed in: build
`new Map(fetched.map(r => [r.full_name, r]))`, then
`map.set(m.full_name, { ...map.get(m.full_name), ...m })` for each
manual record, then `Array.from(map.values())`. -/
def fetchAllForGrid (fetched manualHydrated : List Repo) : List Repo :=
  let map0 := fetched.foldl (fun acc r => mapSet acc r.full_name r) []
  let map1 := manualHydrated.foldl
    (fun acc m => mapSet acc m.full_name (spreadRepo (mapGet acc m.full_name) m)) map0
  map1.map (fun p => p.2)

-- ---------------- renderGrid (source lines 827-846) ----------------

/-- `networkErrorHint(err)` (source lines 298-309), with the environment
(`location.protocol === "file:"`, `navigator.onLine === false`) passed
explicitly. -/
def networkErrorHint (fileProtocol offline : Bool) (err : String) : String :=
  if fileProtocol then
    "Blocked by browser for file://. Use a local server (e.g., python -m http.server) or GitHub Pages."
  else if offline then "You appear to be offline."
  else if hasSubstr err "Failed to fetch" then
    "Network/CORS issue while contacting api.github.com."
  else ""

/-- What `renderGrid` leaves on the page: either the grid rendered from
a repository list (with the `N repositories` status), or the error
status with an emptied grid. -/
inductive GridOutcome where
  | rendered (repos : List Repo) (status : String)
  | failed (status : String)
deriving DecidableEq, Repr

/-- `renderGrid(modeFromUI)` (source lines 827-846) specialised to a
page with only the user source (no `data-orgs`, no manual list — then
`fetchAllForGrid` resolves to the de-duplicated user repos, and it
rejects exactly when `fetchUserRepos` rejects).  The cache entry for the
user key, the clock, and the dispatch outcome are explicit; on failure
the status message carries `networkErrorHint` and the grid is emptied —
there is no cache fallback in this path. -/
def renderGridUserOnly (cached : Option (CacheEntry (List Repo))) (tNow : Int)
    (dispatch : Except String (List Repo)) (mode : String)
    (exForks exArchived : Bool) (pinnedNames : List String)
    (fileProtocol offline : Bool) : GridOutcome :=
  match (fetchUserRepos cached tNow dispatch).result with
  | .error e =>
    .failed ("Could not load repositories from GitHub. "
      ++ networkErrorHint fileProtocol offline e)
  | .ok data =>
    let raw := fetchAllForGrid data []
    let repos := applyGridFilters exForks exArchived raw
    let sorted := sortRepos repos mode
    let final := pinnedFirst pinnedNames sorted
    .rendered final (toString final.length ++ " repositories")

-- ---------------- Concrete sample inputs (used by witnesses) ----------------

/-- A grid repository record with the given identity and star count and
default values elsewhere (pushed_at null, no topics, no flags). -/
def mkGridRepo (full name : String) (stars : Int) : Repo :=
  { full_name := full, name := name, html_url := "https://github.com/" ++ full
    description := "", language := "", stargazers_count := .num stars
    pushed_at := none, archived := false, fork := false, private_ := false
    topics := some [], _pinned := false }

/-- `{name:"b",stars:5}` from the spec's sort example. -/
def repoB5 : Repo := mkGridRepo "x/b" "b" 5

/-- `{name:"a",stars:5}` from the spec's sort example. -/
def repoA5 : Repo := mkGridRepo "x/a" "a" 5

/-- `{name:"c",stars:9}` from the spec's sort example. -/
def repoC9 : Repo := mkGridRepo "x/c" "c" 9

/-- A fetched grid record for `a/b` with 5 stars (de-duplication example). -/
def fetchedAB : Repo := mkGridRepo "a/b" "b" 5

/-- A manual/hydrated record for `a/b` with 9 stars (de-duplication
example). -/
def manualAB : Repo := { mkGridRepo "a/b" "b" 9 with _pinned := true }

/-- A manual JSON entry that sets only the identity (and the pinned
flag): description, language, stars, topics, pushed date are all left
unset. -/
def entryIdOnly : ManualEntry :=
  { full_name := some "o/r", name := none, html_url := none, url := none
    description := none, language := none, stars := none
    stargazers_count := none, pushed_at := none, archived := false
    fork := false, private_ := false, topics := none, pinned := true }

/-- `normalizeManualRepo entryIdOnly`, the record hydration receives. -/
def mIdOnly : Repo := (normalizeManualRepo entryIdOnly).getD emptyRepo

/-- A successful detail response for `o/r` with live display fields. -/
def frLive : FetchedRepo :=
  { full_name := some "o/r", name := some "r"
    html_url := some "https://github.com/o/r"
    description := some "Live description", language := some "Rust"
    stargazers_count := some (.num 7)
    pushed_at := some "2024-01-02T03:04:05Z"
    archived := some true, fork := none, private_ := none
    topics := some ["x", "y"] }

/-- A topic call whose candidate set (33 topic-less repos) exceeds the
whole global budget. -/
def bigTopicCall : TopicCall :=
  { org := "someorg"
    repos := (List.range 33).map (fun i => mkGridRepo ("someorg/r" ++ toString i) ("r" ++ toString i) 0)
    maxRequests := 100
    fetch := fun _ _ => .ok ["t"] }

/-- A second, smaller topic call (runs after the budget is exhausted in
the witness). -/
def smallTopicCall : TopicCall :=
  { org := "other"
    repos := [mkGridRepo "other/a" "a" 0]
    maxRequests := 24
    fetch := fun _ _ => .error () }

-- ---------------- Auxiliary definitions used by the theorems ----------------

/-- The integer behind a finite JS number (0 for NaN; only consulted
under finiteness hypotheses). -/
def jsIntOf : JsNum → Int
  | .num n => n
  | .nan => 0

/-- The candidate count of one `ensureTopicsFor` call:
`need.length` after the filter and the budget-clamped slice. -/
def needCount (budget : Int) (repos : List Repo) (maxRequests : Int) : Nat :=
  (((List.range repos.length).filter
      (fun i => needsTopics (repos.getD i emptyRepo))).take
      (max 0 (min maxRequests budget)).toNat).length

/-- Well-formedness of the association-list model of the JS `Map`: keys
are unique, and every stored repo's `full_name` is its key (both hold by
construction in `fetchAllForGrid`). -/
def MapOk (acc : List (String × Repo)) : Prop :=
  (∀ p ∈ acc, p.2.full_name = p.1) ∧ acc.Pairwise (fun p q => p.1 ≠ q.1)

/-- Three tasks for the dispatcher witness: a success, a failure, a
success. -/
def wtasks : List (QTask Nat) :=
  [⟨100, .ok 1⟩, ⟨50, .error "HTTP 500"⟩, ⟨70, .ok 2⟩]

-- ---------------- Generic lemmas: stable sort ----------------

theorem jsSortInsert_perm (le : α → α → Bool) (x : α) (l : List α) :
    (jsSortInsert le x l).Perm (x :: l) := by
  induction l with
  | nil => simp [jsSortInsert]
  | cons y r ih =>
    by_cases h : le x y = true
    · simp [jsSortInsert, h]
    · simp only [jsSortInsert, h]
      rw [if_neg (by simp [h])]
      exact (List.Perm.cons y ih).trans (List.Perm.swap x y r)

theorem jsSort_perm (le : α → α → Bool) (l : List α) : (jsSort le l).Perm l := by
  induction l with
  | nil => simp [jsSort]
  | cons x r ih =>
    exact ((jsSortInsert_perm le x (jsSort le r)).trans (.cons x ih))

theorem mem_jsSortInsert (le : α → α → Bool) (x y : α) (l : List α) :
    y ∈ jsSortInsert le x l ↔ y = x ∨ y ∈ l := by
  rw [(jsSortInsert_perm le x l).mem_iff]
  simp

theorem pairwise_jsSortInsert (le : α → α → Bool) (P : α → Prop)
    (total : ∀ a b, P a → P b → le a b = true ∨ le b a = true)
    (trans : ∀ a b c, P a → P b → P c → le a b = true → le b c = true → le a c = true)
    (x : α) (l : List α) (hx : P x) (hl : ∀ y ∈ l, P y)
    (hs : l.Pairwise (fun a b => le a b = true)) :
    (jsSortInsert le x l).Pairwise (fun a b => le a b = true) := by
  induction l with
  | nil => simp [jsSortInsert]
  | cons y r ih =>
    rcases List.pairwise_cons.1 hs with ⟨hyr, hr⟩
    by_cases h : le x y = true
    · simp only [jsSortInsert, h, if_true]
      refine List.pairwise_cons.2 ⟨?_, hs⟩
      intro z hz
      rcases List.mem_cons.1 hz with hzy | hzr
      · subst hzy; exact h
      · exact trans x y z hx (hl y (List.mem_cons_self y r))
          (hl z (List.mem_cons_of_mem y hzr)) h (hyr z hzr)
    · simp only [jsSortInsert, h]
      rw [if_neg (by simp [h])]
      refine List.pairwise_cons.2 ⟨?_, ?_⟩
      · intro z hz
        rcases (mem_jsSortInsert le x z r).1 hz with hzx | hzr
        · subst hzx
          rcases total z y hx (hl y (List.mem_cons_self y r)) with h1 | h1
          · exact absurd h1 h
          · exact h1
        · exact hyr z hzr
      · exact ih (fun z hz => hl z (List.mem_cons_of_mem y hz)) hr

theorem pairwise_jsSort (le : α → α → Bool) (P : α → Prop)
    (total : ∀ a b, P a → P b → le a b = true ∨ le b a = true)
    (trans : ∀ a b c, P a → P b → P c → le a b = true → le b c = true → le a c = true)
    (l : List α) (hl : ∀ y ∈ l, P y) :
    (jsSort le l).Pairwise (fun a b => le a b = true) := by
  induction l with
  | nil => simp [jsSort]
  | cons x r ih =>
    refine pairwise_jsSortInsert le P total trans x (jsSort le r)
      (hl x (by simp)) ?_ (ih (fun z hz => hl z (by simp [hz])))
    intro y hy
    exact hl y (by simp [(jsSort_perm le r).mem_iff.1 hy])

-- ---------------- Generic lemmas: the comparator order ----------------

theorem natListCmp_total (a b : List Nat) :
    natListCmp a b ≤ 0 ∨ natListCmp b a ≤ 0 := by
  induction a generalizing b with
  | nil => cases b <;> simp [natListCmp]
  | cons x as ih =>
    cases b with
    | nil => simp [natListCmp]
    | cons y bs =>
      simp only [natListCmp]
      rcases Nat.lt_trichotomy x y with h | h | h
      · left; rw [if_pos h]; omega
      · subst h
        rcases ih bs with h1 | h1
        · left; rw [if_neg (by omega), if_neg (by omega)]; exact h1
        · right; rw [if_neg (by omega), if_neg (by omega)]; exact h1
      · right; rw [if_pos h]; omega

theorem natListCmp_trans (a b c : List Nat) (h1 : natListCmp a b ≤ 0)
    (h2 : natListCmp b c ≤ 0) : natListCmp a c ≤ 0 := by
  induction a generalizing b c with
  | nil => cases c <;> simp [natListCmp]
  | cons x as ih =>
    cases b with
    | nil => simp [natListCmp] at h1
    | cons y bs =>
      cases c with
      | nil => simp [natListCmp] at h2
      | cons z cs =>
        simp only [natListCmp] at h1 h2 ⊢
        by_cases hxy : x < y
        · by_cases hyz : y < z
          · rw [if_pos (by omega)]; omega
          · by_cases hzy : z < y
            · rw [if_neg hyz, if_pos hzy] at h2; omega
            · have : y = z := by omega
              subst this
              rw [if_pos hxy]; omega
        · by_cases hyx : y < x
          · rw [if_neg hxy, if_pos hyx] at h1; omega
          · have hxyeq : x = y := by omega
            subst hxyeq
            rw [if_neg hxy, if_neg hyx] at h1
            by_cases hyz : x < z
            · rw [if_pos hyz]; omega
            · by_cases hzy : z < x
              · rw [if_neg hyz, if_pos hzy] at h2; omega
              · rw [if_neg hyz, if_neg hzy] at h2 ⊢
                exact ih bs cs h1 h2

theorem strCmp_total (a b : String) : strCmp a b ≤ 0 ∨ strCmp b a ≤ 0 :=
  natListCmp_total _ _

theorem strCmp_trans (a b c : String) (h1 : strCmp a b ≤ 0) (h2 : strCmp b c ≤ 0) :
    strCmp a c ≤ 0 :=
  natListCmp_trans _ _ _ h1 h2

theorem starsLe_char (a b : Repo) (ha : a.stargazers_count.isFinite = true)
    (hb : b.stargazers_count.isFinite = true) :
    starsLe a b = true ↔
      (jsIntOf b.stargazers_count < jsIntOf a.stargazers_count
        ∨ (jsIntOf b.stargazers_count = jsIntOf a.stargazers_count
            ∧ strCmp a.name b.name ≤ 0)) := by
  cases hsa : a.stargazers_count with
  | nan => rw [hsa] at ha; simp [JsNum.isFinite] at ha
  | num sa =>
    cases hsb : b.stargazers_count with
    | nan => rw [hsb] at hb; simp [JsNum.isFinite] at hb
    | num sb =>
      simp only [starsLe, starsCmp, hsa, hsb, JsNum.sub, jsIntOf]
      by_cases h : sb - sa = 0
      · rw [if_pos (by simp [JsNum.falsy, h])]
        simp only [jsLe, decide_eq_true_eq]
        constructor
        · intro hle; right; exact ⟨by omega, hle⟩
        · rintro (hlt | ⟨_, hname⟩)
          · omega
          · exact hname
      · rw [if_neg (by simp [JsNum.falsy, h])]
        simp only [jsLe, decide_eq_true_eq]
        constructor
        · intro hle; left; omega
        · rintro (hlt | ⟨heq, _⟩)
          · omega
          · omega

theorem pushedLe_char (a b : Repo) (ha : (dateMs a.pushed_at).isFinite = true)
    (hb : (dateMs b.pushed_at).isFinite = true) :
    pushedLe a b = true ↔ jsIntOf (dateMs b.pushed_at) ≤ jsIntOf (dateMs a.pushed_at) := by
  cases hda : dateMs a.pushed_at with
  | nan => rw [hda] at ha; simp [JsNum.isFinite] at ha
  | num da =>
    cases hdb : dateMs b.pushed_at with
    | nan => rw [hdb] at hb; simp [JsNum.isFinite] at hb
    | num db =>
      simp only [pushedLe, pushedCmp, hda, hdb, JsNum.sub, jsLe, jsIntOf,
        decide_eq_true_eq]
      omega

theorem nameLe_char (a b : Repo) :
    nameLe a b = true ↔ strCmp a.name b.name ≤ 0 := by
  simp only [nameLe, nameCmp, jsLe, decide_eq_true_eq]

theorem starsLe_total (a b : Repo) (ha : a.stargazers_count.isFinite = true)
    (hb : b.stargazers_count.isFinite = true) :
    starsLe a b = true ∨ starsLe b a = true := by
  rw [starsLe_char a b ha hb, starsLe_char b a hb ha]
  rcases strCmp_total a.name b.name with h | h
  · rcases lt_trichotomy (jsIntOf b.stargazers_count) (jsIntOf a.stargazers_count)
      with h1 | h1 | h1
    · left; left; exact h1
    · left; right; exact ⟨h1, h⟩
    · right; left; exact h1
  · rcases lt_trichotomy (jsIntOf b.stargazers_count) (jsIntOf a.stargazers_count)
      with h1 | h1 | h1
    · left; left; exact h1
    · right; right; exact ⟨h1.symm, h⟩
    · right; left; exact h1

theorem starsLe_trans (a b c : Repo) (ha : a.stargazers_count.isFinite = true)
    (hb : b.stargazers_count.isFinite = true) (hc : c.stargazers_count.isFinite = true)
    (h1 : starsLe a b = true) (h2 : starsLe b c = true) : starsLe a c = true := by
  rw [starsLe_char a b ha hb] at h1
  rw [starsLe_char b c hb hc] at h2
  rw [starsLe_char a c ha hc]
  rcases h1 with h1 | ⟨h1e, h1n⟩
  · rcases h2 with h2 | ⟨h2e, _⟩
    · left; omega
    · left; omega
  · rcases h2 with h2 | ⟨h2e, h2n⟩
    · left; omega
    · right; exact ⟨by omega, strCmp_trans _ _ _ h1n h2n⟩

theorem pushedLe_total (a b : Repo) (ha : (dateMs a.pushed_at).isFinite = true)
    (hb : (dateMs b.pushed_at).isFinite = true) :
    pushedLe a b = true ∨ pushedLe b a = true := by
  rw [pushedLe_char a b ha hb, pushedLe_char b a hb ha]
  omega

theorem pushedLe_trans (a b c : Repo) (ha : (dateMs a.pushed_at).isFinite = true)
    (hb : (dateMs b.pushed_at).isFinite = true) (hc : (dateMs c.pushed_at).isFinite = true)
    (h1 : pushedLe a b = true) (h2 : pushedLe b c = true) : pushedLe a c = true := by
  rw [pushedLe_char a b ha hb] at h1
  rw [pushedLe_char b c hb hc] at h2
  rw [pushedLe_char a c ha hc]
  omega

theorem nameLe_total (a b : Repo) : nameLe a b = true ∨ nameLe b a = true := by
  rw [nameLe_char, nameLe_char]
  exact strCmp_total a.name b.name

theorem nameLe_trans (a b c : Repo) (h1 : nameLe a b = true) (h2 : nameLe b c = true) :
    nameLe a c = true := by
  rw [nameLe_char] at h1 h2 ⊢
  exact strCmp_trans _ _ _ h1 h2

-- ---------------- Lemmas: dispatcher ----------------

theorem pump_length (t : Nat) (ts : List (QTask α)) :
    (pump t ts).length = ts.length := by
  induction ts generalizing t with
  | nil => rfl
  | cons task rest ih => simp [pump, ih]

theorem pump_map_snd (t : Nat) (ts : List (QTask α)) :
    (pump t ts).map (fun p => p.2) = ts.map (fun q => q.result) := by
  induction ts generalizing t with
  | nil => rfl
  | cons task rest ih => simp [pump, ih]

theorem pumpStart_zero (t : Nat) (task : QTask α) (rest : List (QTask α)) :
    pumpStart t (task :: rest) 0 = t := by
  simp [pumpStart, pump]

theorem pumpStart_succ_eq (t : Nat) (ts : List (QTask α)) (i : Nat)
    (h : i + 1 < ts.length) :
    pumpStart t ts (i + 1) =
      pumpStart t ts i + (ts.getD i ⟨0, .error ""⟩).dur + REQUEST_GAP_MS := by
  induction ts generalizing t i with
  | nil => simp at h
  | cons task rest ih =>
    cases i with
    | zero =>
      cases rest with
      | nil => simp at h
      | cons t2 r2 =>
        simp [pumpStart, pump]
    | succ j =>
      have hj : j + 1 < rest.length := by
        simpa using h
      have := ih (t + task.dur + REQUEST_GAP_MS) j hj
      simpa [pumpStart, pump] using this

-- ---------------- Lemmas: topic budget ----------------

theorem ensureTopicsGo_spec (fetch : String → String → Except Unit (List String))
    (org : String) (need : List Nat) (b : Int) (rs : List Repo) :
    ((ensureTopicsGo fetch org need b rs).budget
        = b - (ensureTopicsGo fetch org need b rs).attempts)
    ∧ (ensureTopicsGo fetch org need b rs).attempts ≤ need.length
    ∧ (b ≤ 0 → (ensureTopicsGo fetch org need b rs).attempts = 0)
    ∧ (∀ x ∈ (ensureTopicsGo fetch org need b rs).trace,
        (ensureTopicsGo fetch org need b rs).budget ≤ x) := by
  induction need generalizing b rs with
  | nil => simp [ensureTopicsGo]
  | cons i rest ih =>
    by_cases hb : b ≤ 0
    · simp [ensureTopicsGo, hb]
    · simp only [ensureTopicsGo, if_neg hb]
      rcases ih (b - 1) (topicsStep fetch org i rs) with ⟨h1, h2, _, h4⟩
      refine ⟨by push_cast; omega, by simpa using Nat.add_le_add_right h2 1, ?_, ?_⟩
      · intro h; exact absurd h hb
      · intro x hx
        rcases List.mem_cons.1 hx with rfl | hx
        · omega
        · exact h4 x hx

theorem ensureTopicsGo_attempts_full (fetch : String → String → Except Unit (List String))
    (org : String) (need : List Nat) (b : Int) (rs : List Repo)
    (h : (need.length : Int) ≤ b) :
    (ensureTopicsGo fetch org need b rs).attempts = need.length := by
  induction need generalizing b rs with
  | nil => simp [ensureTopicsGo]
  | cons i rest ih =>
    have hb : ¬ b ≤ 0 := by
      simp only [List.length_cons] at h
      push_cast at h
      omega
    simp only [ensureTopicsGo, if_neg hb, List.length_cons]
    rw [ih (b - 1) (topicsStep fetch org i rs)
      (by simp only [List.length_cons] at h; push_cast at h ⊢; omega)]

/-- The attempt count and budget effect of `ensureTopicsFor` do not
depend on the outcomes of the individual fetches. -/
theorem ensureTopicsGo_attempts_fetch_indep
    (f g : String → String → Except Unit (List String)) (org : String)
    (need : List Nat) (b : Int) (rs rs' : List Repo)
    (hlen : rs.length = rs'.length) :
    (ensureTopicsGo f org need b rs).attempts
      = (ensureTopicsGo g org need b rs').attempts := by
  induction need generalizing b rs rs' with
  | nil => simp [ensureTopicsGo]
  | cons i rest ih =>
    by_cases hb : b ≤ 0
    · simp [ensureTopicsGo, hb]
    · simp only [ensureTopicsGo, if_neg hb]
      have hlen2 : (topicsStep f org i rs).length = (topicsStep g org i rs').length := by
        unfold topicsStep
        cases f org (rs.getD i emptyRepo).name <;>
          cases g org (rs'.getD i emptyRepo).name <;>
          simp [hlen]
      simp only [ih _ _ _ hlen2]

theorem needCount_le (budget : Int) (repos : List Repo) (maxRequests : Int) :
    needCount budget repos maxRequests ≤ (max 0 (min maxRequests budget)).toNat := by
  unfold needCount
  exact List.length_take_le _ _

theorem ensureTopicsFor_spec (fetch : String → String → Except Unit (List String))
    (org : String) (budget : Int) (repos : List Repo) (maxRequests : Int) :
    ((ensureTopicsFor fetch org budget repos maxRequests).budget
        = budget - (ensureTopicsFor fetch org budget repos maxRequests).attempts)
    ∧ (ensureTopicsFor fetch org budget repos maxRequests).attempts
        ≤ (max 0 (min maxRequests budget)).toNat
    ∧ (budget ≤ 0 → (ensureTopicsFor fetch org budget repos maxRequests).attempts = 0)
    ∧ (∀ x ∈ (ensureTopicsFor fetch org budget repos maxRequests).trace,
        (ensureTopicsFor fetch org budget repos maxRequests).budget ≤ x) := by
  rcases ensureTopicsGo_spec fetch org
    (((List.range repos.length).filter
        (fun i => needsTopics (repos.getD i emptyRepo))).take
        (max 0 (min maxRequests budget)).toNat) budget repos with ⟨h1, h2, h3, h4⟩
  exact ⟨h1, le_trans h2 (List.length_take_le _ _), h3, h4⟩

theorem ensureTopicsFor_budget_nonneg (fetch : String → String → Except Unit (List String))
    (org : String) (budget : Int) (repos : List Repo) (maxRequests : Int)
    (h : 0 ≤ budget) :
    0 ≤ (ensureTopicsFor fetch org budget repos maxRequests).budget := by
  rcases ensureTopicsFor_spec fetch org budget repos maxRequests with ⟨h1, h2, _, _⟩
  have : ((max 0 (min maxRequests budget)).toNat : Int) ≤ budget := by omega
  omega

theorem runTopicCalls_spec (calls : List TopicCall) (b : Int) (h : 0 ≤ b) :
    (0 ≤ (runTopicCalls b calls).1)
    ∧ ((runTopicCalls b calls).1 = b - (runTopicCalls b calls).2.1)
    ∧ (∀ x ∈ (runTopicCalls b calls).2.2, 0 ≤ x) := by
  induction calls generalizing b with
  | nil => simp [runTopicCalls, h]
  | cons c cs ih =>
    simp only [runTopicCalls]
    rcases ensureTopicsFor_spec c.fetch c.org b c.repos c.maxRequests with
      ⟨h1, h2, _, h4⟩
    have hb' : 0 ≤ (ensureTopicsFor c.fetch c.org b c.repos c.maxRequests).budget :=
      ensureTopicsFor_budget_nonneg c.fetch c.org b c.repos c.maxRequests h
    rcases ih _ hb' with ⟨ih1, ih2, ih3⟩
    refine ⟨ih1, by push_cast at ih2 ⊢; omega, ?_⟩
    intro x hx
    rcases List.mem_append.1 hx with hx | hx
    · have := h4 x hx
      omega
    · exact ih3 x hx

theorem runTopicCalls_zero (calls : List TopicCall) :
    (runTopicCalls 0 calls).1 = 0 ∧ (runTopicCalls 0 calls).2.1 = 0 := by
  induction calls with
  | nil => simp [runTopicCalls]
  | cons c cs ih =>
    simp only [runTopicCalls]
    rcases ensureTopicsFor_spec c.fetch c.org 0 c.repos c.maxRequests with
      ⟨h1, _, h3, _⟩
    have ha : (ensureTopicsFor c.fetch c.org 0 c.repos c.maxRequests).attempts = 0 :=
      h3 le_rfl
    have hb : (ensureTopicsFor c.fetch c.org 0 c.repos c.maxRequests).budget = 0 := by
      omega
    rw [hb]
    exact ⟨ih.1, by simp [ha, ih.2]⟩

theorem runTopicCalls_append (b : Int) (xs ys : List TopicCall) :
    (runTopicCalls b (xs ++ ys)).1 = (runTopicCalls (runTopicCalls b xs).1 ys).1
    ∧ (runTopicCalls b (xs ++ ys)).2.1
        = (runTopicCalls b xs).2.1 + (runTopicCalls (runTopicCalls b xs).1 ys).2.1 := by
  induction xs generalizing b with
  | nil => simp [runTopicCalls]
  | cons c cs ih =>
    simp only [List.cons_append, runTopicCalls, List.append_eq]
    rcases ih (ensureTopicsFor c.fetch c.org b c.repos c.maxRequests).budget with
      ⟨ih1, ih2⟩
    exact ⟨ih1, by omega⟩

-- ---------------- Lemmas: grid de-duplication map ----------------

theorem mem_mapSet (acc : List (String × Repo)) (k : String) (v : Repo)
    (q : String × Repo) (hq : q ∈ mapSet acc k v) : q = (k, v) ∨ q ∈ acc := by
  induction acc with
  | nil => simpa [mapSet] using hq
  | cons p rest ih =>
    by_cases h : p.1 = k
    · simp only [mapSet, if_pos h] at hq
      rcases List.mem_cons.1 hq with rfl | hq
      · exact Or.inl rfl
      · exact Or.inr (List.mem_cons_of_mem p hq)
    · simp only [mapSet, if_neg h] at hq
      rcases List.mem_cons.1 hq with rfl | hq
      · exact Or.inr (List.mem_cons_self _ _)
      · rcases ih hq with h1 | h1
        · exact Or.inl h1
        · exact Or.inr (List.mem_cons_of_mem p h1)

theorem mapOk_mapSet (acc : List (String × Repo)) (k : String) (v : Repo)
    (h : MapOk acc) (hv : v.full_name = k) : MapOk (mapSet acc k v) := by
  rcases h with ⟨hval, hkeys⟩
  induction acc with
  | nil => exact ⟨by simpa [mapSet] using hv, by simp [mapSet]⟩
  | cons p rest ih =>
    rcases List.pairwise_cons.1 hkeys with ⟨hp, hrest⟩
    by_cases hpk : p.1 = k
    · simp only [mapSet, if_pos hpk]
      constructor
      · intro q hq
        rcases List.mem_cons.1 hq with rfl | hq
        · exact hv
        · exact hval q (List.mem_cons_of_mem p hq)
      · refine List.pairwise_cons.2 ⟨?_, hrest⟩
        intro q hq
        rw [← hpk]
        exact hp q hq
    · simp only [mapSet, if_neg hpk]
      rcases ih (fun q hq => hval q (List.mem_cons_of_mem p hq)) hrest with ⟨ih1, ih2⟩
      constructor
      · intro q hq
        rcases List.mem_cons.1 hq with rfl | hq
        · exact hval q (List.mem_cons_self _ _)
        · exact ih1 q hq
      · refine List.pairwise_cons.2 ⟨?_, ih2⟩
        intro q hq
        rcases mem_mapSet rest k v q hq with rfl | hq
        · exact hpk
        · exact hp q hq

theorem mapGet_mapSet_self (acc : List (String × Repo)) (k : String) (v : Repo) :
    mapGet (mapSet acc k v) k = some v := by
  induction acc with
  | nil => simp [mapSet, mapGet]
  | cons p rest ih =>
    by_cases h : p.1 = k
    · simp [mapSet, mapGet, h]
    · simp [mapSet, mapGet, h, ih]

theorem mapGet_mapSet_ne (acc : List (String × Repo)) (k k' : String) (v : Repo)
    (h : k' ≠ k) : mapGet (mapSet acc k v) k' = mapGet acc k' := by
  induction acc with
  | nil =>
    simp only [mapSet, mapGet]
    rw [if_neg (fun hh : k = k' => h hh.symm)]
  | cons p rest ih =>
    by_cases hp : p.1 = k
    · simp only [mapSet, if_pos hp, mapGet]
      rw [if_neg (fun hh : k = k' => h hh.symm),
        if_neg (fun hh : p.1 = k' => h (hp.symm.trans hh).symm)]
    · simp only [mapSet, if_neg hp, mapGet]
      by_cases hp' : p.1 = k'
      · rw [if_pos hp', if_pos hp']
      · rw [if_neg hp', if_neg hp', ih]

theorem mapGet_eq_none (acc : List (String × Repo)) (k : String)
    (h : ∀ p ∈ acc, p.1 ≠ k) : mapGet acc k = none := by
  induction acc with
  | nil => rfl
  | cons p rest ih =>
    simp only [mapGet, if_neg (h p (List.mem_cons_self _ _))]
    exact ih (fun q hq => h q (List.mem_cons_of_mem p hq))

theorem mapValues_filter (acc : List (String × Repo)) (k : String) (h : MapOk acc) :
    (acc.map (fun p => p.2)).filter (fun r => r.full_name == k)
      = match mapGet acc k with
        | some v => [v]
        | none => [] := by
  rcases h with ⟨hval, hkeys⟩
  induction acc with
  | nil => rfl
  | cons p rest ih =>
    rcases List.pairwise_cons.1 hkeys with ⟨hp, hrest⟩
    have hpfull : p.2.full_name = p.1 := hval p (List.mem_cons_self _ _)
    by_cases hpk : p.1 = k
    · have hnone : mapGet rest k = none := by
        refine mapGet_eq_none rest k ?_
        intro q hq
        rw [← hpk]
        exact fun hh => (hp q hq) hh.symm
      have hrestfilter :
          (rest.map (fun p => p.2)).filter (fun r => r.full_name == k) = [] := by
        rw [ih (fun q hq => hval q (List.mem_cons_of_mem p hq)) hrest, hnone]
      simp only [List.map_cons, List.filter_cons, mapGet, if_pos hpk]
      rw [if_pos (by simp [hpfull, hpk]), hrestfilter]
    · simp only [List.map_cons, List.filter_cons, mapGet, if_neg hpk]
      rw [if_neg (by simp [hpfull, hpk]),
        ih (fun q hq => hval q (List.mem_cons_of_mem p hq)) hrest]

theorem mapOk_foldl_set (l : List Repo) (acc : List (String × Repo)) (h : MapOk acc) :
    MapOk (l.foldl (fun acc r => mapSet acc r.full_name r) acc) := by
  induction l generalizing acc with
  | nil => exact h
  | cons r rest ih =>
    exact ih _ (mapOk_mapSet acc r.full_name r h rfl)

theorem mapGet_foldl_set (l : List Repo) (acc : List (String × Repo)) (k : String) :
    mapGet (l.foldl (fun acc r => mapSet acc r.full_name r) acc) k
      = match l.reverse.find? (fun r => r.full_name == k) with
        | some m => some m
        | none => mapGet acc k := by
  induction l generalizing acc with
  | nil => rfl
  | cons m0 rest ih =>
    simp only [List.foldl_cons, List.reverse_cons, List.find?_append]
    rw [ih]
    cases hfind : rest.reverse.find? (fun r => r.full_name == k) with
    | some x => simp
    | none =>
      simp only [Option.none_or]
      by_cases hk : m0.full_name = k
      · simp only [List.find?, hk, beq_self_eq_true, cond_true]
        rw [← hk, mapGet_mapSet_self]
      · have hbeq : (m0.full_name == k) = false := by simp [hk]
        simp only [List.find?, hbeq, cond_false]
        rw [mapGet_mapSet_ne acc m0.full_name k m0 (fun hh => hk hh.symm)]

/-- The manual pass of `fetchAllForGrid` inserts each manual record under
its key with value the record itself (`{ ...old, ...m } = m`). -/
theorem manualFold_eq_setFold (ms : List Repo) (acc : List (String × Repo)) :
    ms.foldl (fun acc m => mapSet acc m.full_name (spreadRepo (mapGet acc m.full_name) m)) acc
      = ms.foldl (fun acc r => mapSet acc r.full_name r) acc := by
  induction ms generalizing acc with
  | nil => rfl
  | cons m rest ih => simp only [List.foldl_cons, spreadRepo, ih]

/-- Core de-duplication property of `fetchAllForGrid`: if `m` is the
last manual/hydrated record carrying key `k`, then the aggregated output
contains exactly the record `m` for that key — every field of the output
record is `m`'s, regardless of what any fetched source supplied. -/
theorem fetchAllForGrid_filter_eq (fetched ms : List Repo) (k : String) (m : Repo)
    (h : ms.reverse.find? (fun r => r.full_name == k) = some m) :
    (fetchAllForGrid fetched ms).filter (fun r => r.full_name == k) = [m] := by
  simp only [fetchAllForGrid]
  rw [manualFold_eq_setFold]
  have hok : MapOk (ms.foldl (fun acc r => mapSet acc r.full_name r)
      (fetched.foldl (fun acc r => mapSet acc r.full_name r) [])) :=
    mapOk_foldl_set ms _ (mapOk_foldl_set fetched [] ⟨by simp, by simp⟩)
  rw [mapValues_filter _ k hok, mapGet_foldl_set, h]

-- ---------------- Lemmas: hydration ----------------

theorem hydrateOne_fail (f : String → String → Except String FetchedRepo) (m : Repo)
    (err : String)
    (hf : f ((jsSplit m.full_name '/').getD 0 "") ((jsSplit m.full_name '/').getD 1 "")
      = .error err) :
    hydrateOne f m = m := by
  unfold hydrateOne
  by_cases h : (jsSplit m.full_name '/').getD 0 "" = ""
    ∨ (jsSplit m.full_name '/').getD 1 "" = ""
  · rw [if_pos h]
  · rw [if_neg h, hf]

theorem hydrateOne_ok (f : String → String → Except String FetchedRepo) (m : Repo)
    (fetched : FetchedRepo)
    (howner : (jsSplit m.full_name '/').getD 0 "" ≠ "")
    (hname : (jsSplit m.full_name '/').getD 1 "" ≠ "")
    (hf : f ((jsSplit m.full_name '/').getD 0 "") ((jsSplit m.full_name '/').getD 1 "")
      = .ok fetched) :
    hydrateOne f m =
      { full_name := m.full_name
        name := m.name
        html_url := m.html_url
        description := m.description
        language := m.language
        stargazers_count :=
          if m.stargazers_count.isFinite then m.stargazers_count
          else fetched.stargazers_count.getD (.num 0)
        pushed_at :=
          if truthyS m.pushed_at then m.pushed_at
          else jsOrO fetched.pushed_at m.pushed_at
        archived := m.archived
        fork := m.fork
        private_ := m.private_
        topics :=
          match m.topics with
          | some (t :: ts) => some (t :: ts)
          | _ => some (fetched.topics.getD [])
        _pinned := m._pinned } := by
  unfold hydrateOne
  rw [if_neg (by tauto), hf]

theorem hydrateOne_full_name (f : String → String → Except String FetchedRepo)
    (m : Repo) : (hydrateOne f m).full_name = m.full_name := by
  unfold hydrateOne
  by_cases h : (jsSplit m.full_name '/').getD 0 "" = ""
    ∨ (jsSplit m.full_name '/').getD 1 "" = ""
  · rw [if_pos h]
  · rw [if_neg h]
    cases f ((jsSplit m.full_name '/').getD 0 "") ((jsSplit m.full_name '/').getD 1 "")
      <;> rfl

theorem hydrate_reverse_find (f : String → String → Except String FetchedRepo)
    (list : List Repo) (k : String) :
    (hydrateManualRepos f list).reverse.find? (fun r => r.full_name == k)
      = (list.reverse.find? (fun r => r.full_name == k)).map (hydrateOne f) := by
  unfold hydrateManualRepos
  rw [← List.map_reverse]
  induction list.reverse with
  | nil => rfl
  | cons x rest ih =>
    simp only [List.map_cons, List.find?]
    by_cases hx : (x.full_name == k) = true
    · rw [show ((hydrateOne f x).full_name == k) = true by
        rw [hydrateOne_full_name]; exact hx, hx]
      rfl
    · rw [show ((hydrateOne f x).full_name == k) = false by
        rw [hydrateOne_full_name]; simpa using hx,
        (by simpa using hx : (x.full_name == k) = false)]
      simpa using ih

-- ---------------- Claim theorems ----------------

/-- C1: Across one page load (a sequence of `ensureTopicsFor` calls
sharing the global counter initialised to the fixed ceiling 32), the
budget counter never becomes negative (every value it takes after a
decrement is ≥ 0), the total number of deep topic fetch attempts never
exceeds the ceiling, and once the counter reaches zero after some prefix
of calls, the remaining calls issue no further deep fetch (the page-load
total equals the prefix total). -/
theorem topic_budget_page_load (calls : List TopicCall) :
    (∀ x ∈ (runTopicCalls GLOBAL_TOPICS_FETCH_BUDGET_INIT calls).2.2, 0 ≤ x)
    ∧ (runTopicCalls GLOBAL_TOPICS_FETCH_BUDGET_INIT calls).2.1 ≤ 32
    ∧ (∀ pre suf, calls = pre ++ suf →
        (runTopicCalls GLOBAL_TOPICS_FETCH_BUDGET_INIT pre).1 = 0 →
        (runTopicCalls GLOBAL_TOPICS_FETCH_BUDGET_INIT calls).2.1
          = (runTopicCalls GLOBAL_TOPICS_FETCH_BUDGET_INIT pre).2.1) := by
  have h32 : (0 : Int) ≤ GLOBAL_TOPICS_FETCH_BUDGET_INIT := by
    unfold GLOBAL_TOPICS_FETCH_BUDGET_INIT
    omega
  rcases runTopicCalls_spec calls GLOBAL_TOPICS_FETCH_BUDGET_INIT h32 with ⟨h1, h2, h3⟩
  refine ⟨h3, ?_, ?_⟩
  · have hval : GLOBAL_TOPICS_FETCH_BUDGET_INIT = 32 := rfl
    rw [hval] at h1 h2 ⊢
    omega
  · intro pre suf heq h0
    subst heq
    rcases runTopicCalls_append GLOBAL_TOPICS_FETCH_BUDGET_INIT pre suf with ⟨_, ha2⟩
    rw [ha2, h0, (runTopicCalls_zero suf).2]
    omega

/-- Witness for C1: a page load whose first call (33 topic-less repos,
card limit 100) exhausts the whole budget; the second call then
contributes zero attempts. -/
theorem topic_budget_page_load_witness :
    (runTopicCalls GLOBAL_TOPICS_FETCH_BUDGET_INIT [bigTopicCall]).1 = 0
    ∧ (runTopicCalls GLOBAL_TOPICS_FETCH_BUDGET_INIT
        ([bigTopicCall] ++ [smallTopicCall])).2.1
      = (runTopicCalls GLOBAL_TOPICS_FETCH_BUDGET_INIT [bigTopicCall]).2.1 :=
  ⟨by decide,
    (topic_budget_page_load ([bigTopicCall] ++ [smallTopicCall])).2.2
      [bigTopicCall] [smallTopicCall] rfl (by decide)⟩

/-- C2: The dispatcher executes the queue in submission order — the
`i`-th settlement is exactly the `i`-th task's own result, so one task's
failure rejects only its own promise and later tasks still run — and
successive task starts are separated by the task's duration plus
`REQUEST_GAP_MS`; in particular consecutive starts are at least
`REQUEST_GAP_MS` apart, and a task never starts before the previous one
finished (at most one in flight). -/
theorem dispatcher_fifo_serial_gap (t0 : Nat) (ts : List (QTask α)) :
    ((pump t0 ts).map (fun p => p.2) = ts.map (fun q => q.result))
    ∧ (∀ i, i + 1 < ts.length →
        pumpStart t0 ts (i + 1)
          = pumpStart t0 ts i + (ts.getD i ⟨0, .error ""⟩).dur + REQUEST_GAP_MS
        ∧ pumpStart t0 ts i + REQUEST_GAP_MS ≤ pumpStart t0 ts (i + 1)
        ∧ pumpStart t0 ts i + (ts.getD i ⟨0, .error ""⟩).dur ≤ pumpStart t0 ts (i + 1)) := by
  refine ⟨pump_map_snd t0 ts, ?_⟩
  intro i h
  have he := pumpStart_succ_eq t0 ts i h
  exact ⟨he, by omega, by omega⟩

/-- Witness for C2: three tasks (the middle one failing); the gap between
the first two starts is the first task's duration plus 600 ms, and all
three settle with their own results in order. -/
theorem dispatcher_fifo_serial_gap_witness :
    0 + 1 < wtasks.length
    ∧ (pumpStart 0 wtasks (0 + 1)
        = pumpStart 0 wtasks 0 + (wtasks.getD 0 ⟨0, .error ""⟩).dur + REQUEST_GAP_MS
      ∧ pumpStart 0 wtasks 0 + REQUEST_GAP_MS ≤ pumpStart 0 wtasks (0 + 1)
      ∧ pumpStart 0 wtasks 0 + (wtasks.getD 0 ⟨0, .error ""⟩).dur
          ≤ pumpStart 0 wtasks (0 + 1)) :=
  ⟨by decide, (dispatcher_fifo_serial_gap 0 wtasks).2 0 (by decide)⟩

/-- C10: Every repository of the clamped candidate set that
`ensureTopicsFor` processes costs exactly one unit of the global budget,
regardless of the fetch outcomes — the attempt count equals the
candidate count and the budget drops by exactly that amount, and the
attempt count is identical for any two fetchers `f` and `g` (in
particular one serving fresh cache entries without any network call and
one throwing). -/
theorem budget_decrement_per_candidate
    (f g : String → String → Except Unit (List String)) (org : String)
    (b : Int) (repos : List Repo) (mx : Int) (h : 0 ≤ b) :
    (ensureTopicsFor f org b repos mx).attempts = needCount b repos mx
    ∧ (ensureTopicsFor f org b repos mx).budget = b - needCount b repos mx
    ∧ (ensureTopicsFor f org b repos mx).attempts
        = (ensureTopicsFor g org b repos mx).attempts := by
  have hle : (needCount b repos mx : Int) ≤ b := by
    have h1 := needCount_le b repos mx
    have h2 : ((max 0 (min mx b)).toNat : Int) ≤ b := by omega
    omega
  have hfull :
      (ensureTopicsFor f org b repos mx).attempts = needCount b repos mx := by
    unfold ensureTopicsFor
    exact ensureTopicsGo_attempts_full f org _ b repos hle
  refine ⟨hfull, ?_, ?_⟩
  · rcases ensureTopicsFor_spec f org b repos mx with ⟨h1, _, _, _⟩
    rw [h1, hfull]
  · unfold ensureTopicsFor
    exact ensureTopicsGo_attempts_fetch_indep f g org _ b repos repos rfl

/-- Witness for C10: one needy repository; a cache-serving fetcher and a
throwing fetcher both cost exactly one attempt, dropping the budget from
32 to 31. -/
theorem budget_decrement_per_candidate_witness :
    (0 : Int) ≤ 32
    ∧ ((ensureTopicsFor (fun _ _ => .ok ["t"]) "o" 32 [mkGridRepo "o/a" "a" 0] 24).attempts
        = needCount 32 [mkGridRepo "o/a" "a" 0] 24
      ∧ (ensureTopicsFor (fun _ _ => .ok ["t"]) "o" 32 [mkGridRepo "o/a" "a" 0] 24).budget
        = 32 - needCount 32 [mkGridRepo "o/a" "a" 0] 24
      ∧ (ensureTopicsFor (fun _ _ => .ok ["t"]) "o" 32 [mkGridRepo "o/a" "a" 0] 24).attempts
        = (ensureTopicsFor (fun _ _ => .error ()) "o" 32 [mkGridRepo "o/a" "a" 0] 24).attempts) :=
  ⟨by decide,
    budget_decrement_per_candidate (fun _ _ => .ok ["t"]) (fun _ _ => .error ())
      "o" 32 [mkGridRepo "o/a" "a" 0] 24 (by decide)⟩

/-- C8: For the cache-fronted source fetchers (shown here for
`fetchOrgRepos` with its 30-minute TTL and for `fetchRepoTopics` with its
7-day TTL), a read at time `tNow` of an entry written at `c.ts` with
`tNow - c.ts < TTL` returns the cached payload without dispatching and
leaves the cache untouched; a read with `tNow - c.ts ≥ TTL`, or with no
entry, dispatches, and on success returns the fresh payload and
overwrites the entry with `{ ts: tNow, data }` (for topics, the stored
payload is the extracted `names` array). -/
theorem source_fetcher_cache_discipline :
    (∀ (c : CacheEntry (List Repo)) (tNow : Int) (d : Except String (List Repo)),
      tNow - c.ts < ORG_CACHE_TTL →
        fetchOrgRepos (some c) tNow d
          = { result := .ok c.data, cacheAfter := some c, dispatched := false })
    ∧ (∀ (c : CacheEntry (List Repo)) (tNow : Int) (d : Except String (List Repo)),
        ORG_CACHE_TTL ≤ tNow - c.ts →
          (fetchOrgRepos (some c) tNow d).dispatched = true
          ∧ ∀ v, d = .ok v →
              fetchOrgRepos (some c) tNow d
                = { result := .ok v, cacheAfter := some ⟨tNow, v⟩, dispatched := true })
    ∧ (∀ (tNow : Int) (d : Except String (List Repo)),
        (fetchOrgRepos none tNow d).dispatched = true
        ∧ ∀ v, d = .ok v →
            fetchOrgRepos none tNow d
              = { result := .ok v, cacheAfter := some ⟨tNow, v⟩, dispatched := true })
    ∧ (∀ (c : CacheEntry (List String)) (tNow : Int) (d : Except String TopicsResp),
        tNow - c.ts < TOPIC_CACHE_TTL →
          fetchRepoTopics (some c) tNow d
            = { result := .ok c.data, cacheAfter := some c, dispatched := false })
    ∧ (∀ (c : CacheEntry (List String)) (tNow : Int) (d : Except String TopicsResp),
        TOPIC_CACHE_TTL ≤ tNow - c.ts →
          (fetchRepoTopics (some c) tNow d).dispatched = true
          ∧ ∀ v, d = .ok v →
              fetchRepoTopics (some c) tNow d
                = { result := .ok (v.names.getD []),
                    cacheAfter := some ⟨tNow, v.names.getD []⟩, dispatched := true })
    ∧ (∀ (tNow : Int) (d : Except String TopicsResp),
        (fetchRepoTopics none tNow d).dispatched = true
        ∧ ∀ v, d = .ok v →
            fetchRepoTopics none tNow d
              = { result := .ok (v.names.getD []),
                  cacheAfter := some ⟨tNow, v.names.getD []⟩, dispatched := true }) := by
  refine ⟨?_, ?_, ?_, ?_, ?_, ?_⟩
  · intro c tNow d h
    simp [fetchOrgRepos, cachedFetch, if_pos h]
  · intro c tNow d h
    constructor
    · simp only [fetchOrgRepos, cachedFetch, if_neg (by omega : ¬ tNow - c.ts < ORG_CACHE_TTL)]
      cases d <;> rfl
    · rintro v rfl
      simp [fetchOrgRepos, cachedFetch, if_neg (by omega : ¬ tNow - c.ts < ORG_CACHE_TTL)]
  · intro tNow d
    constructor
    · cases d <;> rfl
    · rintro v rfl
      rfl
  · intro c tNow d h
    simp [fetchRepoTopics, if_pos h]
  · intro c tNow d h
    constructor
    · simp only [fetchRepoTopics, if_neg (by omega : ¬ tNow - c.ts < TOPIC_CACHE_TTL)]
      cases d <;> rfl
    · rintro v rfl
      simp [fetchRepoTopics, if_neg (by omega : ¬ tNow - c.ts < TOPIC_CACHE_TTL)]
  · intro tNow d
    constructor
    · cases d <;> rfl
    · rintro v rfl
      rfl

/-- Witness for C8: a fresh org-repos read at 1 ms after the write is
served from cache without dispatch; a topics read exactly at the 7-day
boundary dispatches and overwrites with the extracted names. -/
theorem source_fetcher_cache_discipline_witness :
    ((1 : Int) - 0 < ORG_CACHE_TTL
      ∧ fetchOrgRepos (some ⟨0, [fetchedAB]⟩) 1 (.error "never reached")
          = { result := .ok [fetchedAB], cacheAfter := some ⟨0, [fetchedAB]⟩
              dispatched := false })
    ∧ (TOPIC_CACHE_TTL ≤ TOPIC_CACHE_TTL - 0
      ∧ fetchRepoTopics (some ⟨0, ["old"]⟩) TOPIC_CACHE_TTL (.ok ⟨some ["new"]⟩)
          = { result := .ok ["new"], cacheAfter := some ⟨TOPIC_CACHE_TTL, ["new"]⟩
              dispatched := true }) :=
  ⟨⟨by decide,
      source_fetcher_cache_discipline.1 ⟨0, [fetchedAB]⟩ 1 (.error "never reached")
        (by decide)⟩,
    ⟨by decide,
      (source_fetcher_cache_discipline.2.2.2.2.1 ⟨0, ["old"]⟩ TOPIC_CACHE_TTL
          (.ok ⟨some ["new"]⟩) (by decide)).2 ⟨some ["new"]⟩ rfl⟩⟩

/-- C4: When a manual record with a resolvable `owner/name` identity is
hydrated and the detail fetch succeeds, the merged record's star count
is the manual one if that is a finite number and otherwise the fetched
one (normalised through `?? 0`); its topics are the manual list if
non-empty and otherwise the fetched list (normalised through the
`Array.isArray` check); its pushed date is the manual value if present
(truthy) and otherwise the fetched value (the source's
`fetched.pushed_at || m.pushed_at`). -/
theorem hydrate_merge_precedence (f : String → String → Except String FetchedRepo)
    (m : Repo) (fetched : FetchedRepo)
    (howner : (jsSplit m.full_name '/').getD 0 "" ≠ "")
    (hname : (jsSplit m.full_name '/').getD 1 "" ≠ "")
    (hf : f ((jsSplit m.full_name '/').getD 0 "") ((jsSplit m.full_name '/').getD 1 "")
      = .ok fetched) :
    (hydrateOne f m).stargazers_count
      = (if m.stargazers_count.isFinite then m.stargazers_count
         else fetched.stargazers_count.getD (.num 0))
    ∧ (∀ t ts, m.topics = some (t :: ts) → (hydrateOne f m).topics = m.topics)
    ∧ ((m.topics = none ∨ m.topics = some []) →
        (hydrateOne f m).topics = some (fetched.topics.getD []))
    ∧ (truthyS m.pushed_at = true → (hydrateOne f m).pushed_at = m.pushed_at)
    ∧ (truthyS m.pushed_at = false →
        (hydrateOne f m).pushed_at = jsOrO fetched.pushed_at m.pushed_at) := by
  rw [hydrateOne_ok f m fetched howner hname hf]
  refine ⟨rfl, ?_, ?_, ?_, ?_⟩
  · intro t ts ht
    simp [ht]
  · rintro (ht | ht) <;> simp [ht]
  · intro ht
    simp [ht]
  · intro ht
    simp [ht]

/-- Witness for C4: the identity-only manual entry `o/r` hydrated with a
live response; its (normalised, finite) star count 0 wins, the fetched
topics and pushed date fill the empty manual ones. -/
theorem hydrate_merge_precedence_witness :
    ((jsSplit mIdOnly.full_name '/').getD 0 "" ≠ ""
      ∧ (jsSplit mIdOnly.full_name '/').getD 1 "" ≠ "")
    ∧ ((hydrateOne (fun _ _ => .ok frLive) mIdOnly).stargazers_count
        = (if mIdOnly.stargazers_count.isFinite then mIdOnly.stargazers_count
           else frLive.stargazers_count.getD (.num 0))
      ∧ ((mIdOnly.topics = none ∨ mIdOnly.topics = some []) →
          (hydrateOne (fun _ _ => .ok frLive) mIdOnly).topics
            = some (frLive.topics.getD []))
      ∧ (truthyS mIdOnly.pushed_at = false →
          (hydrateOne (fun _ _ => .ok frLive) mIdOnly).pushed_at
            = jsOrO frLive.pushed_at mIdOnly.pushed_at)) :=
  ⟨⟨by decide, by decide⟩,
    (hydrate_merge_precedence (fun _ _ => .ok frLive) mIdOnly frLive
        (by decide) (by decide) rfl).1,
    (hydrate_merge_precedence (fun _ _ => .ok frLive) mIdOnly frLive
        (by decide) (by decide) rfl).2.2.1,
    (hydrate_merge_precedence (fun _ _ => .ok frLive) mIdOnly frLive
        (by decide) (by decide) rfl).2.2.2.2⟩

/-- C5 counterexample: the manual entry `entryIdOnly` does not set
`description` (nor the archived flag), the fetch returns
`description = "Live description"` and `archived = true`, yet the merged
record's description is the normalization default `""` and its archived
flag is `false` — the fetched display values are not retained for fields
the manual entry left unset, contradicting the claim. -/
theorem hydrate_display_fields_counterexample :
    entryIdOnly.description = none
    ∧ entryIdOnly.language = none
    ∧ frLive.description = some "Live description"
    ∧ frLive.archived = some true
    ∧ normalizeManualRepo entryIdOnly = some mIdOnly
    ∧ (hydrateOne (fun _ _ => .ok frLive) mIdOnly).description = ""
    ∧ (hydrateOne (fun _ _ => .ok frLive) mIdOnly).language = ""
    ∧ (hydrateOne (fun _ _ => .ok frLive) mIdOnly).archived = false := by
  decide

/-- Every success branch of `normalizeManualRepo` fills the display
fields the same way: `description`/`language` via `|| ""`, the flags via
truthiness. -/
theorem normalizeManualRepo_fields (entry : ManualEntry) (m : Repo)
    (h : normalizeManualRepo entry = some m) :
    m.description = jsOr entry.description ""
    ∧ m.language = jsOr entry.language ""
    ∧ m.archived = entry.archived
    ∧ m.fork = entry.fork
    ∧ m.private_ = entry.private_ := by
  simp only [normalizeManualRepo] at h
  repeat' split at h
  all_goals
    first
      | exact Option.noConfusion h
      | (cases h; exact ⟨rfl, rfl, rfl, rfl, rfl⟩)

/-- C5 (amended): for every manual record hydrated with successfully
fetched details, each display field (`description`, `language`,
`html_url`, and the archived/fork/private flags) of the merged record
equals the normalized manual value — the manual entry's value when set,
otherwise the normalization default (empty description/language, the
entry's derived URL, the truthiness of the flag) — never the fetched
value: the `...m` spread overwrites the whole fetched base because a
normalized manual record defines every field. -/
theorem hydrate_display_fields_manual_normalized
    (entry : ManualEntry) (m : Repo) (f : String → String → Except String FetchedRepo)
    (fetched : FetchedRepo)
    (hnorm : normalizeManualRepo entry = some m)
    (howner : (jsSplit m.full_name '/').getD 0 "" ≠ "")
    (hname : (jsSplit m.full_name '/').getD 1 "" ≠ "")
    (hf : f ((jsSplit m.full_name '/').getD 0 "") ((jsSplit m.full_name '/').getD 1 "")
      = .ok fetched) :
    (hydrateOne f m).description = m.description
    ∧ (hydrateOne f m).language = m.language
    ∧ (hydrateOne f m).html_url = m.html_url
    ∧ (hydrateOne f m).archived = m.archived
    ∧ (hydrateOne f m).fork = m.fork
    ∧ (hydrateOne f m).private_ = m.private_
    ∧ m.description = jsOr entry.description ""
    ∧ m.language = jsOr entry.language ""
    ∧ m.archived = entry.archived
    ∧ m.fork = entry.fork
    ∧ m.private_ = entry.private_ := by
  have hm := hydrateOne_ok f m fetched howner hname hf
  rcases normalizeManualRepo_fields entry m hnorm with ⟨h1, h2, h3, h4, h5⟩
  exact ⟨by rw [hm], by rw [hm], by rw [hm], by rw [hm], by rw [hm], by rw [hm],
    h1, h2, h3, h4, h5⟩

/-- Witness for C5 (amended): the identity-only entry; its merged
description/language are the normalization defaults and the flags are
the entry's falsy flags. -/
theorem hydrate_display_fields_manual_normalized_witness :
    normalizeManualRepo entryIdOnly = some mIdOnly
    ∧ ((hydrateOne (fun _ _ => .ok frLive) mIdOnly).description = mIdOnly.description
      ∧ (hydrateOne (fun _ _ => .ok frLive) mIdOnly).archived = mIdOnly.archived
      ∧ mIdOnly.description = jsOr entryIdOnly.description "") :=
  ⟨by decide,
    (hydrate_display_fields_manual_normalized entryIdOnly mIdOnly
        (fun _ _ => .ok frLive) frLive (by decide) (by decide) (by decide) rfl).1,
    (hydrate_display_fields_manual_normalized entryIdOnly mIdOnly
        (fun _ _ => .ok frLive) frLive (by decide) (by decide) (by decide) rfl).2.2.2.1,
    (hydrate_display_fields_manual_normalized entryIdOnly mIdOnly
        (fun _ _ => .ok frLive) frLive (by decide) (by decide) (by decide) rfl).2.2.2.2.2.2.1⟩

/-- C6 counterexample: a cache entry for the user key exists (written at
time 0) but is stale at read time `GRID_CACHE_TTL`; the dispatch raises;
`renderGrid` then shows the error status with an emptied grid instead of
using the cached repository list — there is no stale-cache fallback in
the grid path, contradicting the claim. -/
theorem renderGrid_stale_cache_counterexample :
    GRID_CACHE_TTL ≤ GRID_CACHE_TTL - (0 : Int)
    ∧ renderGridUserOnly (some ⟨0, [fetchedAB]⟩) GRID_CACHE_TTL (.error "boom")
        "pushed" true true [] false false
      = .failed "Could not load repositories from GitHub. "
    ∧ ∀ status, renderGridUserOnly (some ⟨0, [fetchedAB]⟩) GRID_CACHE_TTL
        (.error "boom") "pushed" true true [] false false
        ≠ .rendered [fetchedAB] status := by
  have hmain : renderGridUserOnly (some ⟨0, [fetchedAB]⟩) GRID_CACHE_TTL
      (.error "boom") "pushed" true true [] false false
      = .failed "Could not load repositories from GitHub. " := by decide
  refine ⟨by omega, hmain, ?_⟩
  intro status h
  rw [hmain] at h
  exact GridOutcome.noConfusion h

/-- C6 (amended): the grid serves from cache only while the entry is
fresh (`tNow - ts < GRID_CACHE_TTL`) — then nothing is dispatched and
the cached list feeds the render pipeline; when the entry is stale (or
the hypothesis below also covers reads after any entry) and the dispatch
raises, the grid shows the error status (with the network hint) and no
repository list, regardless of the stale entry still being present. -/
theorem renderGrid_cache_behavior (c : CacheEntry (List Repo)) (tNow : Int)
    (d : Except String (List Repo)) (mode : String) (exF exA : Bool)
    (pins : List String) (fp off : Bool) :
    (tNow - c.ts < GRID_CACHE_TTL →
      renderGridUserOnly (some c) tNow d mode exF exA pins fp off
        = .rendered
            (pinnedFirst pins (sortRepos (applyGridFilters exF exA
              (fetchAllForGrid c.data [])) mode))
            (toString (pinnedFirst pins (sortRepos (applyGridFilters exF exA
              (fetchAllForGrid c.data [])) mode)).length ++ " repositories")
      ∧ (fetchUserRepos (some c) tNow d).dispatched = false)
    ∧ (∀ e, GRID_CACHE_TTL ≤ tNow - c.ts → d = .error e →
        renderGridUserOnly (some c) tNow d mode exF exA pins fp off
          = .failed ("Could not load repositories from GitHub. "
              ++ networkErrorHint fp off e)) := by
  constructor
  · intro h
    constructor
    · simp [renderGridUserOnly, fetchUserRepos, cachedFetch, if_pos h]
    · simp [fetchUserRepos, cachedFetch, if_pos h]
  · rintro e h rfl
    simp [renderGridUserOnly, fetchUserRepos, cachedFetch,
      if_neg (by omega : ¬ tNow - c.ts < GRID_CACHE_TTL)]

/-- Witness for C6 (amended): a fresh read (1 ms after the write) renders
from cache without dispatching; a stale read whose dispatch raises shows
the error status. -/
theorem renderGrid_cache_behavior_witness :
    ((1 : Int) - 0 < GRID_CACHE_TTL
      ∧ renderGridUserOnly (some ⟨0, [fetchedAB]⟩) 1 (.error "boom")
          "pushed" true true [] false false
        = .rendered
            (pinnedFirst [] (sortRepos (applyGridFilters true true
              (fetchAllForGrid [fetchedAB] [])) "pushed"))
            (toString (pinnedFirst [] (sortRepos (applyGridFilters true true
              (fetchAllForGrid [fetchedAB] [])) "pushed")).length ++ " repositories")
      ∧ (fetchUserRepos (some ⟨0, [fetchedAB]⟩) 1 (.error "boom")).dispatched = false)
    ∧ (GRID_CACHE_TTL ≤ GRID_CACHE_TTL - (0 : Int)
      ∧ renderGridUserOnly (some ⟨0, [fetchedAB]⟩) GRID_CACHE_TTL (.error "boom")
          "pushed" true true [] false false
        = .failed ("Could not load repositories from GitHub. "
            ++ networkErrorHint false false "boom")) :=
  ⟨⟨by decide,
      ((renderGrid_cache_behavior ⟨0, [fetchedAB]⟩ 1 (.error "boom")
          "pushed" true true [] false false).1 (by decide)).1,
      ((renderGrid_cache_behavior ⟨0, [fetchedAB]⟩ 1 (.error "boom")
          "pushed" true true [] false false).1 (by decide)).2⟩,
    ⟨by decide,
      (renderGrid_cache_behavior ⟨0, [fetchedAB]⟩ GRID_CACHE_TTL (.error "boom")
          "pushed" true true [] false false).2 "boom" (by decide) rfl⟩⟩

/-- C3: For every key `k`, if `m` is the last manual/hydrated record
with `full_name = k`, the aggregated output of `fetchAllForGrid`
contains exactly one record for `k`, and that record is `m` itself —
so on every field present in both sources the manual/hydrated value
wins (in particular a fetched `a/b` with 5 stars merged with a manual
`a/b` with 9 stars yields one record with 9 stars, as the witness
instantiates). -/
theorem grid_dedupe_manual_wins (fetched manual : List Repo) (k : String) (m : Repo)
    (h : manual.reverse.find? (fun r => r.full_name == k) = some m) :
    (fetchAllForGrid fetched manual).filter (fun r => r.full_name == k) = [m]
    ∧ ((fetchAllForGrid fetched manual).filter (fun r => r.full_name == k)).length = 1 := by
  have h1 := fetchAllForGrid_filter_eq fetched manual k m h
  exact ⟨h1, by rw [h1]; rfl⟩

/-- Witness for C3: the spec's de-duplication example — fetched
`{a/b, 5 stars}` plus manual `{a/b, 9 stars}` aggregate to exactly one
`a/b` record carrying 9 stars. -/
theorem grid_dedupe_manual_wins_witness :
    [manualAB].reverse.find? (fun r => r.full_name == "a/b") = some manualAB
    ∧ (fetchAllForGrid [fetchedAB] [manualAB]).filter
        (fun r => r.full_name == "a/b") = [manualAB]
    ∧ fetchedAB.stargazers_count = .num 5
    ∧ manualAB.stargazers_count = .num 9 :=
  ⟨by decide,
    (grid_dedupe_manual_wins [fetchedAB] [manualAB] "a/b" manualAB (by decide)).1,
    by decide, by decide⟩

/-- C9: A manual record with a resolvable `owner/name` identity whose
detail fetch fails is passed through hydration completely unchanged
(every manual field as given), the hydrated list keeps one record per
input record, and — when `m` is the last manual record with its key —
the aggregated grid output still contains exactly the record `m`, with
whatever pinned/override fields it declared: a failed detail fetch never
removes a manual record. -/
theorem manual_fetch_failure_preserved
    (f : String → String → Except String FetchedRepo) (m : Repo) (err : String)
    (howner : (jsSplit m.full_name '/').getD 0 "" ≠ "")
    (hname : (jsSplit m.full_name '/').getD 1 "" ≠ "")
    (hfail : f ((jsSplit m.full_name '/').getD 0 "") ((jsSplit m.full_name '/').getD 1 "")
      = .error err) :
    hydrateOne f m = m
    ∧ (∀ list : List Repo, (hydrateManualRepos f list).length = list.length)
    ∧ (∀ (fetched list : List Repo),
        list.reverse.find? (fun r => r.full_name == m.full_name) = some m →
        (fetchAllForGrid fetched (hydrateManualRepos f list)).filter
          (fun r => r.full_name == m.full_name) = [m]) := by
  have h1 : hydrateOne f m = m := hydrateOne_fail f m err hfail
  refine ⟨h1, ?_, ?_⟩
  · intro list
    simp [hydrateManualRepos]
  · intro fetched list hfind
    refine fetchAllForGrid_filter_eq fetched _ m.full_name m ?_
    rw [hydrate_reverse_find, hfind]
    simp [h1]

/-- Witness for C9: the pinned manual record for `a/b` whose detail
fetch 404s survives hydration as-is and is the single `a/b` record in
the grid aggregation (still pinned). -/
theorem manual_fetch_failure_preserved_witness :
    ((jsSplit manualAB.full_name '/').getD 0 "" ≠ ""
      ∧ (jsSplit manualAB.full_name '/').getD 1 "" ≠ "")
    ∧ hydrateOne (fun _ _ => .error "Not found (check username/org name).") manualAB
        = manualAB
    ∧ (fetchAllForGrid [fetchedAB]
        (hydrateManualRepos (fun _ _ => .error "Not found (check username/org name).")
          [manualAB])).filter (fun r => r.full_name == manualAB.full_name)
      = [manualAB]
    ∧ manualAB._pinned = true :=
  ⟨⟨by decide, by decide⟩,
    (manual_fetch_failure_preserved
        (fun _ _ => .error "Not found (check username/org name).") manualAB
        "Not found (check username/org name)." (by decide) (by decide) rfl).1,
    (manual_fetch_failure_preserved
        (fun _ _ => .error "Not found (check username/org name).") manualAB
        "Not found (check username/org name)." (by decide) (by decide) rfl).2.2
      [fetchedAB] [manualAB] (by decide),
    by decide⟩

/-- C7 counterexample: (a) the claim's own worked example is wrong for
the code — sorting `[{b,5}, {a,5}, {c,9}]` by stars gives `[c, a, b]`
(the tie `a`/`b` is broken by name **ascending**, so `a` precedes `b`),
not `[c, b, a]`; (b) the grid sort has no `"name"` mode — `"name"`
falls into the `else` branch and sorts by pushed date (both records
here have null dates, so the stable sort keeps `[b, a]`), not by name
ascending. -/
theorem sort_modes_counterexample :
    ((sortRepos [repoB5, repoA5, repoC9] "stars").map (fun r => r.name) ≠ ["c", "b", "a"])
    ∧ ((sortRepos [repoB5, repoA5, repoC9] "stars").map (fun r => r.name) = ["c", "a", "b"])
    ∧ ((sortRepos [repoB5, repoA5] "name").map (fun r => r.name) ≠ ["a", "b"])
    ∧ ((sortRepos [repoB5, repoA5] "name").map (fun r => r.name) = ["b", "a"]) := by
  decide

/-- C7 (amended): the grid sort `sortRepos` supports two modes —
`"stars"` (star count descending, ties broken by name ascending, so the
spec's example yields `[c, a, b]`) and the pushed default (last-pushed
timestamp descending); any other mode value, `"name"` included, falls
through to the pushed order.  The org-card sort `sortForCard` supports
the three modes `"stars"` (same order as the grid's), `"name"` (name
ascending) and pushed (same as the grid's).  Each sort returns a
permutation of its input, sorted for the stated order (for stars and
pushed under the hypothesis that the compared values are finite
numbers). -/
theorem sort_modes_amended :
    ((sortRepos [repoB5, repoA5, repoC9] "stars").map (fun r => r.name) = ["c", "a", "b"])
    ∧ (∀ (l : List Repo) (mode : String), mode ≠ "stars" →
        sortRepos l mode = jsSort pushedLe l)
    ∧ (∀ l : List Repo, (∀ r ∈ l, r.stargazers_count.isFinite = true) →
        (sortRepos l "stars").Perm l
        ∧ (sortRepos l "stars").Pairwise (fun a b => starsLe a b = true))
    ∧ (∀ a b : Repo, a.stargazers_count.isFinite = true →
        b.stargazers_count.isFinite = true →
        (starsLe a b = true ↔
          (jsIntOf b.stargazers_count < jsIntOf a.stargazers_count
            ∨ (jsIntOf b.stargazers_count = jsIntOf a.stargazers_count
                ∧ strCmp a.name b.name ≤ 0))))
    ∧ (∀ l : List Repo, (∀ r ∈ l, (dateMs r.pushed_at).isFinite = true) →
        (sortRepos l "pushed").Perm l
        ∧ (sortRepos l "pushed").Pairwise (fun a b => pushedLe a b = true))
    ∧ (∀ a b : Repo, (dateMs a.pushed_at).isFinite = true →
        (dateMs b.pushed_at).isFinite = true →
        (pushedLe a b = true ↔
          jsIntOf (dateMs b.pushed_at) ≤ jsIntOf (dateMs a.pushed_at)))
    ∧ (∀ l : List Repo,
        (sortForCard l "name").Perm l
        ∧ (sortForCard l "name").Pairwise (fun a b => strCmp a.name b.name ≤ 0))
    ∧ (∀ l : List Repo, sortForCard l "stars" = sortRepos l "stars"
        ∧ sortForCard l "pushed" = sortRepos l "pushed") := by
  refine ⟨by decide, ?_, ?_, starsLe_char, ?_, pushedLe_char, ?_, ?_⟩
  · intro l mode h
    rw [sortRepos, if_neg h]
  · intro l hfin
    have hs : sortRepos l "stars" = jsSort starsLe l := by
      rw [sortRepos, if_pos rfl]
    rw [hs]
    exact ⟨jsSort_perm starsLe l,
      pairwise_jsSort starsLe (fun r => r.stargazers_count.isFinite = true)
        starsLe_total starsLe_trans l hfin⟩
  · intro l hfin
    have hs : sortRepos l "pushed" = jsSort pushedLe l := by
      rw [sortRepos, if_neg (by decide)]
    rw [hs]
    exact ⟨jsSort_perm pushedLe l,
      pairwise_jsSort pushedLe (fun r => (dateMs r.pushed_at).isFinite = true)
        pushedLe_total pushedLe_trans l hfin⟩
  · intro l
    have hs : sortForCard l "name" = jsSort nameLe l := by
      rw [sortForCard, if_neg (by decide), if_pos rfl]
    rw [hs]
    refine ⟨jsSort_perm nameLe l, ?_⟩
    have hp := pairwise_jsSort nameLe (fun _ => True)
      (fun a b _ _ => nameLe_total a b)
      (fun a b c _ _ _ h1 h2 => nameLe_trans a b c h1 h2) l (fun _ _ => trivial)
    exact hp.imp (fun h => (nameLe_char _ _).1 h)
  · intro l
    constructor
    · rw [sortForCard, sortRepos, if_pos rfl, if_pos rfl]
    · rw [sortForCard, sortRepos, if_neg (by decide), if_neg (by decide),
        if_neg (by decide)]

/-- Witness for C7 (amended): the stars-mode order properties
instantiated on the spec's example list (all star counts finite). -/
theorem sort_modes_amended_witness :
    (∀ r ∈ [repoB5, repoA5, repoC9], r.stargazers_count.isFinite = true)
    ∧ (sortRepos [repoB5, repoA5, repoC9] "stars").Perm [repoB5, repoA5, repoC9]
    ∧ (sortRepos [repoB5, repoA5, repoC9] "stars").Pairwise
        (fun a b => starsLe a b = true)
    ∧ ("name" ≠ "stars"
      ∧ sortRepos [repoB5, repoA5] "name" = jsSort pushedLe [repoB5, repoA5]) :=
  ⟨by decide,
    (sort_modes_amended.2.2.1 [repoB5, repoA5, repoC9] (by decide)).1,
    (sort_modes_amended.2.2.1 [repoB5, repoA5, repoC9] (by decide)).2,
    by decide,
    sort_modes_amended.2.1 [repoB5, repoA5] "name" (by decide)⟩
